import Mathlib

/-!
Verification of the `sanctifier-core` static-analysis engine.

This file gives a shallow embedding of the analyzer core
(`tooling/sanctifier-core/src/lib.rs`, `storage_collision.rs`,
`gas_estimator.rs`, `complexity.rs`) over an explicit model of the
`syn` syntax tree, and proves or refutes the specification claims
about the detectors.

Modelling conventions:
* `syn` syntax nodes are modelled as mutual inductive types; list-shaped
  children use dedicated mutual list types so that structural recursion
  and induction stay straightforward.
* Machine integers (`usize`) are modelled as `Nat` (no detector performs
  subtraction or can overflow on realistic inputs except via saturating
  ops, modelled explicitly); `f64` configuration values are modelled as
  `Rat`, with `as usize` casts modelled as `Rat.floor` (truncation of a
  non-negative float).
* `proc-macro2` span line numbers are modelled as a `line : Nat` field on
  exactly the nodes whose span the analyzer reads.
* Rust `catch_unwind` failure isolation is modelled by an explicit
  `Except`-valued computation: a `panic` parameter records whether the
  guarded closure raised.
-/

namespace Sanctifier

/-- Substring test over the underlying character lists; models Rust's
`str::contains` used by the storage-mutation heuristic. -/
def strContains (hay needle : String) : Bool :=
  let h := hay.toList
  let n := needle.toList
  (List.range (h.length + 1)).any (fun i => n.isPrefixOf (h.drop i))

/-- Models Rust's `str::trim_matches('"')`: strips every leading and
trailing double-quote character. -/
def trimQuotes (s : String) : String :=
  let l := (s.toList.dropWhile (· = '"')).reverse.dropWhile (· = '"')
  String.mk l.reverse

-- ── Model of `syn::Type` (as used by the two `estimate_type_size` tables) ──

mutual
/-- Model of a `syn::Type`.  A path type keeps its last segment's
identifier and angle-bracketed type arguments (the only parts either
`estimate_type_size` reads; in `syn` a parsed type path always has at
least one segment, so the code's `segments.last() == None` branch is
dead and not modelled). -/
inductive RType : Type where
  | path (seg : String) (args : RTypeList)
  | array (elem : RType) (len : Option Nat)
  | other
  deriving DecidableEq
/-- List of types (angle-bracketed generic arguments). -/
inductive RTypeList : Type where
  | nil
  | cons (head : RType) (tail : RTypeList)
  deriving DecidableEq
end

-- ── Model of `syn` expressions / statements ──────────────────────────────

/-- Model of a `syn::Lit` as far as the analyzers inspect it. -/
inductive RLit : Type where
  | str (s : String)
  | int (n : Nat)
  | other
  deriving DecidableEq

/-- Binary operators distinguished by the analyzers (`syn::BinOp`).
Compound assignment is part of `BinOp` in syn 2.0.  `cmp` stands for
every operator none of the detectors classifies specially. -/
inductive RBinOp : Type where
  | add | sub | mul | addAssign | subAssign | mulAssign
  | andOp | orOp | cmp
  deriving DecidableEq

mutual
/-- Model of a `syn::Expr`, restricted to the node kinds the analyzers
pattern-match on, plus enough structure for the default `syn::visit`
traversal.  `line` fields model the `.span().start().line` values the
analyzers read (for `binary` the line is the left operand's start line,
which is what `ArithVisitor` reads). -/
inductive RExpr : Type where
  | lit (l : RLit)
  | pathE (segs : List String)
  | call (line : Nat) (func : RExpr) (args : RExprList)
  | methodCall (receiver : RExpr) (method : String) (args : RExprList)
  | macCall (line : Nat) (path : List String) (tokens : String)
  | binary (line : Nat) (op : RBinOp) (left right : RExpr)
  | blockE (body : RStmtList)
  | iteE (cond : RExpr) (thenB : RStmtList) (elseB : RExpr)
  | iteNoElse (cond : RExpr) (thenB : RStmtList)
  | matchE (scrut : RExpr) (arms : RExprList)
  | forLoop (pat : String) (iter : RExpr) (body : RStmtList)
  | whileLoop (cond : RExpr) (body : RStmtList)
  | loopE (body : RStmtList)
  | closure (body : RExpr)
  deriving DecidableEq
/-- List of expressions (call arguments, match arm bodies). -/
inductive RExprList : Type where
  | nil
  | cons (head : RExpr) (tail : RExprList)
  deriving DecidableEq
/-- Model of a `syn::Stmt`.  `localInit`'s type is `some ty` exactly when
the `let` pattern is a `syn::Pat::Type` ascription. -/
inductive RStmt : Type where
  | exprStmt (e : RExpr)
  | localInit (ty : Option RType) (init : RExpr)
  | localNoInit (ty : Option RType)
  | macStmt (path : List String) (tokens : String)
  | otherStmt
  deriving DecidableEq
/-- Statement list; a `syn::Block` is its list of statements. -/
inductive RStmtList : Type where
  | nil
  | cons (head : RStmt) (tail : RStmtList)
  deriving DecidableEq
end

/-- Model of a function item (`syn::ItemFn` / `syn::ImplItemFn`): name,
visibility, parameter count and body. -/
structure RFnDef : Type where
  name : String
  isPublic : Bool
  paramCount : Nat
  body : RStmtList
  deriving DecidableEq

/-- Model of struct/enum field lists (`syn::Fields`); only field types
matter to the size estimator. -/
inductive RFields : Type where
  | named (tys : List RType)
  | unnamed (tys : List RType)
  | unit
  deriving DecidableEq

/-- Model of a `syn::ItemStruct`: name, attribute names, fields. -/
structure RStructDef : Type where
  name : String
  attrs : List String
  fields : RFields
  deriving DecidableEq

/-- Model of a `syn::ItemEnum`; variants keep only their field lists. -/
structure REnumDef : Type where
  name : String
  attrs : List String
  variants : List RFields
  deriving DecidableEq

/-- Model of a top-level `syn::Item`, restricted to the kinds the
analyzers distinguish. -/
inductive RItem : Type where
  | implBlock (selfTy : String) (fns : List RFnDef)
  | fnItem (f : RFnDef)
  | constItem (line : Nat) (name : String) (value : RExpr)
  | structItem (s : RStructDef)
  | enumItem (e : REnumDef)
  | useItem
  | otherItem
  deriving DecidableEq

/-- Model of a parsed `syn::File`. -/
structure RFile : Type where
  items : List RItem
  deriving DecidableEq

-- ── Token rendering (model of `quote::quote!(..).to_string()`) ───────────

/-- Rendering of the binary operators. -/
def renderBinOp : RBinOp → String
  | .add => "+" | .sub => "-" | .mul => "*"
  | .addAssign => "+=" | .subAssign => "-=" | .mulAssign => "*="
  | .andOp => "&&" | .orOp => "||" | .cmp => "<"

mutual
/-- Token rendering of an expression, modelling
`quote::quote!(#e).to_string()` (tokens separated by single spaces).
Only substring containment of storage keywords is ever decided on this
string, so the exact spacing is immaterial to the proofs. -/
def renderExpr : RExpr → String
  | .lit (.str s) => "\"" ++ s ++ "\""
  | .lit (.int n) => toString n
  | .lit .other => "<lit>"
  | .pathE segs => String.intercalate " :: " segs
  | .call _ f args => renderExpr f ++ " (" ++ renderExprList args ++ ")"
  | .methodCall r m args =>
      renderExpr r ++ " . " ++ m ++ " (" ++ renderExprList args ++ ")"
  | .macCall _ p toks => String.intercalate " :: " p ++ " ! (" ++ toks ++ ")"
  | .binary _ op l r => renderExpr l ++ " " ++ renderBinOp op ++ " " ++ renderExpr r
  | .blockE b => "\x7b " ++ renderStmts b ++ " \x7d"
  | .iteE c t e =>
      "if " ++ renderExpr c ++ " \x7b " ++ renderStmts t ++ " \x7d else " ++ renderExpr e
  | .iteNoElse c t => "if " ++ renderExpr c ++ " \x7b " ++ renderStmts t ++ " \x7d"
  | .matchE s arms => "match " ++ renderExpr s ++ " \x7b " ++ renderExprList arms ++ " \x7d"
  | .forLoop pat it b =>
      "for " ++ pat ++ " in " ++ renderExpr it ++ " \x7b " ++ renderStmts b ++ " \x7d"
  | .whileLoop c b => "while " ++ renderExpr c ++ " \x7b " ++ renderStmts b ++ " \x7d"
  | .loopE b => "loop \x7b " ++ renderStmts b ++ " \x7d"
  | .closure b => "| | " ++ renderExpr b
/-- Comma-separated rendering of an expression list. -/
def renderExprList : RExprList → String
  | .nil => ""
  | .cons e .nil => renderExpr e
  | .cons e tl => renderExpr e ++ " , " ++ renderExprList tl
/-- Rendering of a statement. -/
def renderStmt : RStmt → String
  | .exprStmt e => renderExpr e ++ " ;"
  | .localInit _ e => "let _ = " ++ renderExpr e ++ " ;"
  | .localNoInit _ => "let _ ;"
  | .macStmt p toks => String.intercalate " :: " p ++ " ! (" ++ toks ++ ") ;"
  | .otherStmt => ";"
/-- Rendering of a statement list. -/
def renderStmts : RStmtList → String
  | .nil => ""
  | .cons s .nil => renderStmt s
  | .cons s tl => renderStmt s ++ " " ++ renderStmts tl
end

-- ── Authorization-Gap Detector (`Analyzer::scan_auth_gaps_impl`) ─────────

/-- The two authorization-primitive names recognized by the analyzer. -/
def isAuthName (s : String) : Bool :=
  s == "require_auth" || s == "require_auth_for_args"

/-- The three storage-mutating method names. -/
def isMutMethod (s : String) : Bool :=
  s == "set" || s == "update" || s == "remove"

/-- The storage-keyword containment heuristic of `Analyzer::check_expr`. -/
def containsStorageKeyword (s : String) : Bool :=
  strContains s "storage" || strContains s "persistent" ||
  strContains s "temporary" || strContains s "instance"

/-- The string the analyzer actually tests for storage keywords.  In the
source, `quote::quote!(#m.receiver)` interpolates the *whole* method-call
expression `m` and then appends the raw tokens `. receiver`, so the
rendered text includes the receiver, the method name and the arguments. -/
def receiverStr (r : RExpr) (m : String) (args : RExprList) : String :=
  renderExpr (.methodCall r m args) ++ " . receiver"

/-- The free-call authorization test of `Analyzer::check_expr`: the
callee is a path expression whose last segment is an authorization
primitive.  (`syn` paths always have a segment; the empty-path case is
unreachable from parsing and yields `false` here.) -/
def callFuncAuth : RExpr → Bool
  | .pathE segs =>
      match segs.getLast? with
      | some id => isAuthName id
      | none => false
  | _ => false

mutual
/-- Model of `Analyzer::check_expr`: threads the `(has_mutation,
has_auth)` pair through the statement/expression traversal.  Expression
kinds outside the explicit match arms fall into the source's `_ => {}`
and are not descended into. -/
def check_expr : RExpr → Bool × Bool → Bool × Bool
  | .call _ f args, st =>
      let st1 := if callFuncAuth f then (st.1, true) else st
      check_expr_list args st1
  | .methodCall r m args, st =>
      let st1 :=
        if isMutMethod m && containsStorageKeyword (receiverStr r m args) then
          (true, st.2)
        else st
      let st2 := if isAuthName m then (st1.1, true) else st1
      check_expr_list args (check_expr r st2)
  | .blockE b, st => check_fn_body b st
  | .iteE c t e, st => check_expr e (check_fn_body t (check_expr c st))
  | .iteNoElse c t, st => check_fn_body t (check_expr c st)
  | .matchE s arms, st => check_expr_list arms (check_expr s st)
  | .lit _, st => st
  | .pathE _, st => st
  | .macCall _ _ _, st => st
  | .binary _ _ _ _, st => st
  | .forLoop _ _ _, st => st
  | .whileLoop _ _, st => st
  | .loopE _, st => st
  | .closure _, st => st
/-- `check_expr` over an argument/arm list, left to right. -/
def check_expr_list : RExprList → Bool × Bool → Bool × Bool
  | .nil, st => st
  | .cons e tl, st => check_expr_list tl (check_expr e st)
/-- Model of `Analyzer::check_fn_body`: statement loop. -/
def check_fn_body : RStmtList → Bool × Bool → Bool × Bool
  | .nil, st => st
  | .cons s tl, st => check_fn_body tl (check_auth_stmt s st)
/-- One statement of `Analyzer::check_fn_body`; `syn::Path::is_ident`
requires a single-segment path, hence the singleton comparisons. -/
def check_auth_stmt : RStmt → Bool × Bool → Bool × Bool
  | .exprStmt e, st => check_expr e st
  | .localInit _ e, st => check_expr e st
  | .localNoInit _, st => st
  | .macStmt p _, st =>
      if p == ["require_auth"] || p == ["require_auth_for_args"] then
        (st.1, true)
      else st
  | .otherStmt, st => st
end

/-- All functions defined inside implementation blocks, in file order. -/
def implFnsOf (file : RFile) : List RFnDef :=
  file.items.flatMap fun it =>
    match it with
    | .implBlock _ fns => fns
    | _ => []

/-- The inner loop of `Analyzer::scan_auth_gaps_impl` over one impl
block's items: every public function whose traversal yields
`has_mutation && !has_auth` pushes its name. -/
def auth_gap_fns (fns : List RFnDef) : List String :=
  fns.filterMap fun f =>
    if f.isPublic then
      let st := check_fn_body f.body (false, false)
      if st.1 && !st.2 then some f.name else none
    else none

/-- Model of `Analyzer::scan_auth_gaps_impl` (the `Option` input is the
result of `syn::parse_str`; `Err(_)` returns the empty list). -/
def scan_auth_gaps_impl (p : Option RFile) : List String :=
  match p with
  | none => []
  | some file =>
      file.items.flatMap fun it =>
        match it with
        | .implBlock _ fns => auth_gap_fns fns
        | _ => []

-- Pure containment predicates mirroring exactly the reach of the
-- `check_expr`/`check_fn_body` traversal (used to characterize the
-- accumulated booleans).

mutual
/-- The traversal finds a storage mutation somewhere in `e`. -/
def mutReachE : RExpr → Bool
  | .call _ _ args => mutReachL args
  | .methodCall r m args =>
      (isMutMethod m && containsStorageKeyword (receiverStr r m args)) ||
      mutReachE r || mutReachL args
  | .blockE b => mutReachB b
  | .iteE c t e => mutReachE c || mutReachB t || mutReachE e
  | .iteNoElse c t => mutReachE c || mutReachB t
  | .matchE s arms => mutReachE s || mutReachL arms
  | _ => false
/-- `mutReachE` over a list. -/
def mutReachL : RExprList → Bool
  | .nil => false
  | .cons e tl => mutReachE e || mutReachL tl
/-- `mutReachE` over a block. -/
def mutReachB : RStmtList → Bool
  | .nil => false
  | .cons s tl => mutReachS s || mutReachB tl
/-- `mutReachE` over a statement. -/
def mutReachS : RStmt → Bool
  | .exprStmt e => mutReachE e
  | .localInit _ e => mutReachE e
  | _ => false
end

mutual
/-- The traversal finds an authorization primitive somewhere in `e`. -/
def authReachE : RExpr → Bool
  | .call _ f args => callFuncAuth f || authReachL args
  | .methodCall r m args => isAuthName m || authReachE r || authReachL args
  | .blockE b => authReachB b
  | .iteE c t e => authReachE c || authReachB t || authReachE e
  | .iteNoElse c t => authReachE c || authReachB t
  | .matchE s arms => authReachE s || authReachL arms
  | _ => false
/-- `authReachE` over a list. -/
def authReachL : RExprList → Bool
  | .nil => false
  | .cons e tl => authReachE e || authReachL tl
/-- `authReachE` over a block. -/
def authReachB : RStmtList → Bool
  | .nil => false
  | .cons s tl => authReachS s || authReachB tl
/-- `authReachE` over a statement. -/
def authReachS : RStmt → Bool
  | .exprStmt e => authReachE e
  | .localInit _ e => authReachE e
  | .macStmt p _ => p == ["require_auth"] || p == ["require_auth_for_args"]
  | _ => false
end

-- The claim's own wording, for comparison with the implementation: a
-- storage mutation is a `set`/`update`/`remove` method call whose
-- *receiver's* rendered text contains a storage keyword, and
-- containment is over the whole body ("anywhere in the body").

mutual
/-- Claim-side predicate: `e` contains, anywhere in its tree, a
`set`/`update`/`remove` method call on a receiver whose rendered text
contains a storage keyword (the claim's wording; the implementation
instead tests the whole method call's rendered text and does not descend
into every node kind). -/
def claimMutE : RExpr → Bool
  | .lit _ => false
  | .pathE _ => false
  | .call _ f args => claimMutE f || claimMutL args
  | .methodCall r m args =>
      (isMutMethod m && containsStorageKeyword (renderExpr r)) ||
      claimMutE r || claimMutL args
  | .macCall _ _ _ => false
  | .binary _ _ l r => claimMutE l || claimMutE r
  | .blockE b => claimMutB b
  | .iteE c t e => claimMutE c || claimMutB t || claimMutE e
  | .iteNoElse c t => claimMutE c || claimMutB t
  | .matchE s arms => claimMutE s || claimMutL arms
  | .forLoop _ it b => claimMutE it || claimMutB b
  | .whileLoop c b => claimMutE c || claimMutB b
  | .loopE b => claimMutB b
  | .closure b => claimMutE b
/-- `claimMutE` over a list. -/
def claimMutL : RExprList → Bool
  | .nil => false
  | .cons e tl => claimMutE e || claimMutL tl
/-- `claimMutE` over a block. -/
def claimMutB : RStmtList → Bool
  | .nil => false
  | .cons s tl => claimMutS s || claimMutB tl
/-- `claimMutE` over a statement. -/
def claimMutS : RStmt → Bool
  | .exprStmt e => claimMutE e
  | .localInit _ e => claimMutE e
  | _ => false
end

mutual
/-- Claim-side predicate: `e` contains, anywhere in its tree, an
authorization primitive as a free call, method call, or macro
invocation. -/
def claimAuthE : RExpr → Bool
  | .lit _ => false
  | .pathE _ => false
  | .call _ f args => callFuncAuth f || claimAuthE f || claimAuthL args
  | .methodCall r m args => isAuthName m || claimAuthE r || claimAuthL args
  | .macCall _ p _ => isAuthName (p.getLastD "")
  | .binary _ _ l r => claimAuthE l || claimAuthE r
  | .blockE b => claimAuthB b
  | .iteE c t e => claimAuthE c || claimAuthB t || claimAuthE e
  | .iteNoElse c t => claimAuthE c || claimAuthB t
  | .matchE s arms => claimAuthE s || claimAuthL arms
  | .forLoop _ it b => claimAuthE it || claimAuthB b
  | .whileLoop c b => claimAuthE c || claimAuthB b
  | .loopE b => claimAuthB b
  | .closure b => claimAuthE b
/-- `claimAuthE` over a list. -/
def claimAuthL : RExprList → Bool
  | .nil => false
  | .cons e tl => claimAuthE e || claimAuthL tl
/-- `claimAuthE` over a block. -/
def claimAuthB : RStmtList → Bool
  | .nil => false
  | .cons s tl => claimAuthS s || claimAuthB tl
/-- `claimAuthE` over a statement. -/
def claimAuthS : RStmt → Bool
  | .exprStmt e => claimAuthE e
  | .localInit _ e => claimAuthE e
  | .macStmt p _ => isAuthName (p.getLastD "")
  | _ => false
end

/-- Body of the C1 counterexample function: `cfg.set(storage_key, 1)` —
the receiver `cfg` carries no storage keyword, but the rendered text of
the whole method call (which is what the code scans, via
`quote!(#m.receiver)`) contains `storage` through the argument. -/
def c1Body : RStmtList :=
  .cons
    (.exprStmt
      (.methodCall (.pathE ["cfg"]) "set"
        (.cons (.pathE ["storage_key"]) (.cons (.lit (.int 1)) .nil))))
    .nil

/-- The C1 counterexample file: one impl block with one public function. -/
def c1File : RFile :=
  ⟨[.implBlock "Cfg" [⟨"set_flag", true, 2, c1Body⟩]]⟩

-- ── Panic / unwrap / expect detection (`Analyzer::scan_panics_impl`) ─────

/-- Model of the `PanicIssue` finding. -/
structure PanicIssue : Type where
  function_name : String
  issue_type : String
  location : String
  deriving DecidableEq

/-- An issue as the panic scanner constructs it: both `function_name` and
`location` are set to the enclosing function's name. -/
def mkPanicIssue (fnName ty : String) : PanicIssue :=
  ⟨fnName, ty, fnName⟩

mutual
/-- Model of `Analyzer::check_expr_panics`: pushes one issue per
`panic!` expression macro and per `unwrap`/`expect` method call, in
traversal order, descending only into the source's explicit match arms
(method receivers/args, call args, blocks, if, match). -/
def check_expr_panics (fnName : String) : RExpr → List PanicIssue → List PanicIssue
  | .macCall _ p _, acc =>
      if p == ["panic"] then acc ++ [mkPanicIssue fnName "panic!"] else acc
  | .methodCall r m args, acc =>
      let acc1 :=
        if m == "unwrap" || m == "expect" then acc ++ [mkPanicIssue fnName m]
        else acc
      check_expr_panics_list fnName args (check_expr_panics fnName r acc1)
  | .call _ _ args, acc => check_expr_panics_list fnName args acc
  | .blockE b, acc => check_fn_panics fnName b acc
  | .iteE c t e, acc =>
      check_expr_panics fnName e
        (check_fn_panics fnName t (check_expr_panics fnName c acc))
  | .iteNoElse c t, acc => check_fn_panics fnName t (check_expr_panics fnName c acc)
  | .matchE s arms, acc =>
      check_expr_panics_list fnName arms (check_expr_panics fnName s acc)
  | .lit _, acc => acc
  | .pathE _, acc => acc
  | .binary _ _ _ _, acc => acc
  | .forLoop _ _ _, acc => acc
  | .whileLoop _ _, acc => acc
  | .loopE _, acc => acc
  | .closure _, acc => acc
/-- `check_expr_panics` over an argument/arm list. -/
def check_expr_panics_list (fnName : String) :
    RExprList → List PanicIssue → List PanicIssue
  | .nil, acc => acc
  | .cons e tl, acc =>
      check_expr_panics_list fnName tl (check_expr_panics fnName e acc)
/-- Model of `Analyzer::check_fn_panics`: the statement loop; a bare
`panic!(...)` statement is `syn::Stmt::Macro`. -/
def check_fn_panics (fnName : String) : RStmtList → List PanicIssue → List PanicIssue
  | .nil, acc => acc
  | .cons s tl, acc => check_fn_panics fnName tl (check_stmt_panics fnName s acc)
/-- One statement of `Analyzer::check_fn_panics`. -/
def check_stmt_panics (fnName : String) : RStmt → List PanicIssue → List PanicIssue
  | .exprStmt e, acc => check_expr_panics fnName e acc
  | .localInit _ e, acc => check_expr_panics fnName e acc
  | .localNoInit _, acc => acc
  | .macStmt p _, acc =>
      if p == ["panic"] then acc ++ [mkPanicIssue fnName "panic!"] else acc
  | .otherStmt, acc => acc
end

/-- Model of `Analyzer::scan_panics_impl`: iterates the impl blocks only
(free `fn` items are never visited) and scans every impl function
regardless of visibility. -/
def scan_panics_impl (p : Option RFile) : List PanicIssue :=
  match p with
  | none => []
  | some file =>
      file.items.flatMap fun it =>
        match it with
        | .implBlock _ fns =>
            fns.flatMap fun f => check_fn_panics f.name f.body []
        | _ => []

-- Pure occurrence lists mirroring the reach and order of the panic
-- traversal (issue-type strings in emission order).

mutual
/-- Issue types emitted for `e` by the panic traversal, in order. -/
def panicOccE : RExpr → List String
  | .macCall _ p _ => if p == ["panic"] then ["panic!"] else []
  | .methodCall r m args =>
      (if m == "unwrap" || m == "expect" then [m] else []) ++
      panicOccE r ++ panicOccL args
  | .call _ _ args => panicOccL args
  | .blockE b => panicOccB b
  | .iteE c t e => panicOccE c ++ panicOccB t ++ panicOccE e
  | .iteNoElse c t => panicOccE c ++ panicOccB t
  | .matchE s arms => panicOccE s ++ panicOccL arms
  | _ => []
/-- `panicOccE` over a list. -/
def panicOccL : RExprList → List String
  | .nil => []
  | .cons e tl => panicOccE e ++ panicOccL tl
/-- `panicOccE` over a block. -/
def panicOccB : RStmtList → List String
  | .nil => []
  | .cons s tl => panicOccS s ++ panicOccB tl
/-- `panicOccE` over a statement. -/
def panicOccS : RStmt → List String
  | .exprStmt e => panicOccE e
  | .localInit _ e => panicOccE e
  | .macStmt p _ => if p == ["panic"] then ["panic!"] else []
  | _ => []
end

-- ── Arithmetic-Overflow Detector (`ArithVisitor`) ────────────────────────

/-- Model of the `ArithmeticIssue` finding. -/
structure ArithmeticIssue : Type where
  function_name : String
  operation : String
  suggestion : String
  location : String
  deriving DecidableEq

/-- Model of `ArithVisitor::classify_op`: overflow-prone operators with
their fixed suggestion strings; every other operator yields `none`. -/
def classify_op : RBinOp → Option (String × String)
  | .add => some ("+", "Use `.checked_add(rhs)` or `.saturating_add(rhs)` to handle overflow")
  | .sub => some ("-", "Use `.checked_sub(rhs)` or `.saturating_sub(rhs)` to handle underflow")
  | .mul => some ("*", "Use `.checked_mul(rhs)` or `.saturating_mul(rhs)` to handle overflow")
  | .addAssign => some ("+=", "Replace `a += b` with `a = a.checked_add(b).expect(\"overflow\")`")
  | .subAssign => some ("-=", "Replace `a -= b` with `a = a.checked_sub(b).expect(\"underflow\")`")
  | .mulAssign => some ("*=", "Replace `a *= b` with `a = a.checked_mul(b).expect(\"overflow\")`")
  | .andOp => none
  | .orOp => none
  | .cmp => none

/-- Model of `is_string_literal`. -/
def is_string_literal : RExpr → Bool
  | .lit (.str _) => true
  | _ => false

/-- State of `ArithVisitor`: the issue list and the de-duplication set of
`(function_name, operator)` pairs (a `HashSet`, modelled as a list tested
by membership only). -/
structure ArithState : Type where
  issues : List ArithmeticIssue
  seen : List (String × String)
  deriving DecidableEq

/-- The `visit_expr_binary` step applied at one binary node (before
descending into the operands): emits at most one issue per
`(function, operator)` pair. -/
def arith_binary_step (cf : Option String) (line : Nat) (op : RBinOp)
    (l r : RExpr) (st : ArithState) : ArithState :=
  match cf, classify_op op with
  | some n, some (o, sugg) =>
      if !is_string_literal l && !is_string_literal r then
        if st.seen.contains (n, o) then st
        else
          { issues := st.issues ++ [⟨n, o, sugg, n ++ ":" ++ toString line⟩],
            seen := (n, o) :: st.seen }
      else st
  | _, _ => st

mutual
/-- Model of the `ArithVisitor` traversal: the default `syn::visit`
walk descends into every child, with the overridden `visit_expr_binary`
firing at each binary expression; `cf` is `current_fn`. -/
def arith_expr (cf : Option String) : RExpr → ArithState → ArithState
  | .binary line op l r, st =>
      arith_expr cf r (arith_expr cf l (arith_binary_step cf line op l r st))
  | .call _ f args, st => arith_expr_list cf args (arith_expr cf f st)
  | .methodCall r _ args, st => arith_expr_list cf args (arith_expr cf r st)
  | .macCall _ _ _, st => st
  | .blockE b, st => arith_block cf b st
  | .iteE c t e, st => arith_expr cf e (arith_block cf t (arith_expr cf c st))
  | .iteNoElse c t, st => arith_block cf t (arith_expr cf c st)
  | .matchE s arms, st => arith_expr_list cf arms (arith_expr cf s st)
  | .forLoop _ it b, st => arith_block cf b (arith_expr cf it st)
  | .whileLoop c b, st => arith_block cf b (arith_expr cf c st)
  | .loopE b, st => arith_block cf b st
  | .closure b, st => arith_expr cf b st
  | .lit _, st => st
  | .pathE _, st => st
/-- `arith_expr` over a list. -/
def arith_expr_list (cf : Option String) : RExprList → ArithState → ArithState
  | .nil, st => st
  | .cons e tl, st => arith_expr_list cf tl (arith_expr cf e st)
/-- `arith_expr` over a block. -/
def arith_block (cf : Option String) : RStmtList → ArithState → ArithState
  | .nil, st => st
  | .cons s tl, st => arith_block cf tl (arith_stmt cf s st)
/-- `arith_expr` over a statement. -/
def arith_stmt (cf : Option String) : RStmt → ArithState → ArithState
  | .exprStmt e, st => arith_expr cf e st
  | .localInit _ e, st => arith_expr cf e st
  | _, st => st
end

/-- `ArithVisitor` over one item: impl methods and free `fn` items set
`current_fn` (any visibility — the visitor does not test `pub`); any
expressions elsewhere (e.g. const initializers) are walked with
`current_fn == None`. -/
def arith_item : RItem → ArithState → ArithState
  | .implBlock _ fns, st =>
      fns.foldl (fun st f => arith_block (some f.name) f.body st) st
  | .fnItem f, st => arith_block (some f.name) f.body st
  | .constItem _ _ v, st => arith_expr none v st
  | _, st => st

/-- `ArithVisitor` over an item list. -/
def arith_items : List RItem → ArithState → ArithState
  | [], st => st
  | it :: tl, st => arith_items tl (arith_item it st)

/-- Model of `Analyzer::scan_arithmetic_overflow_impl`. -/
def scan_arithmetic_overflow_impl (p : Option RFile) : List ArithmeticIssue :=
  match p with
  | none => []
  | some file => (arith_items file.items ⟨[], []⟩).issues

-- Spec-side eligibility: the function's body contains a binary
-- expression with the given classified operator and no string-literal
-- operand, anywhere (full descent, matching the default visitor).

/-- The operator of one binary node is classified as `o` and neither
operand is a string literal. -/
def eligHere (o : String) (op : RBinOp) (l r : RExpr) : Bool :=
  (match classify_op op with
   | some (o', _) => o' == o
   | none => false) && !is_string_literal l && !is_string_literal r

mutual
/-- `e` contains an eligible occurrence of operator `o`. -/
def eligE (o : String) : RExpr → Bool
  | .binary _ op l r => eligHere o op l r || eligE o l || eligE o r
  | .call _ f args => eligE o f || eligL o args
  | .methodCall r _ args => eligE o r || eligL o args
  | .macCall _ _ _ => false
  | .blockE b => eligB o b
  | .iteE c t e => eligE o c || eligB o t || eligE o e
  | .iteNoElse c t => eligE o c || eligB o t
  | .matchE s arms => eligE o s || eligL o arms
  | .forLoop _ it b => eligE o it || eligB o b
  | .whileLoop c b => eligE o c || eligB o b
  | .loopE b => eligB o b
  | .closure b => eligE o b
  | .lit _ => false
  | .pathE _ => false
/-- `eligE` over a list. -/
def eligL (o : String) : RExprList → Bool
  | .nil => false
  | .cons e tl => eligE o e || eligL o tl
/-- `eligE` over a block. -/
def eligB (o : String) : RStmtList → Bool
  | .nil => false
  | .cons s tl => eligS o s || eligB o tl
/-- `eligE` over a statement. -/
def eligS (o : String) : RStmt → Bool
  | .exprStmt e => eligE o e
  | .localInit _ e => eligE o e
  | _ => false
end

/-- `eligE` lifted to one item: some function of the item is named `n`
and has an eligible occurrence of `o`. -/
def eligItemB (it : RItem) (n o : String) : Bool :=
  match it with
  | .implBlock _ fns => fns.any fun f => f.name == n && eligB o f.body
  | .fnItem f => f.name == n && eligB o f.body
  | _ => false

/-- Some function (free or impl method) named `n` has an eligible
occurrence of operator `o` in its body. -/
def eligFile (items : List RItem) (n o : String) : Bool :=
  items.any fun it => eligItemB it n o

/-- The eligibility contributed at one expression under `current_fn`
`cf`, for the pair `q`. -/
def cfElig (cf : Option String) (q : String × String) (b : Bool) : Bool :=
  match cf with
  | some n => q.1 == n && b
  | none => false

/-- The counting invariant of `ArithVisitor`: the issue list holds
exactly one issue per pair in the de-duplication set. -/
def ArithInv (st : ArithState) : Prop :=
  ∀ q : String × String,
    st.issues.countP (fun i => i.function_name == q.1 && i.operation == q.2) =
      if q ∈ st.seen then 1 else 0

-- ── Complexity Analyzer (`complexity.rs`, `FnComplexityVisitor`) ─────────

/-- Length of an expression list (match arm count). -/
def armsLen : RExprList → Nat
  | .nil => 0
  | .cons _ tl => armsLen tl + 1

mutual
/-- Model of `FnComplexityVisitor`'s cyclomatic counter: the default
`syn::visit` walk with the overridden hooks adding `+1` per `if`,
`+ (arms − 1)` per `match` (`saturating_sub`, hence `Nat` subtraction),
`+1` per `for`/`while`/`loop`/closure, and `+1` per `&&`/`||`. -/
def cc_expr : RExpr → Nat → Nat
  | .lit _, acc => acc
  | .pathE _, acc => acc
  | .call _ f args, acc => cc_list args (cc_expr f acc)
  | .methodCall r _ args, acc => cc_list args (cc_expr r acc)
  | .macCall _ _ _, acc => acc
  | .binary _ op l r, acc =>
      cc_expr r (cc_expr l (acc + if op = .andOp ∨ op = .orOp then 1 else 0))
  | .blockE b, acc => cc_block b acc
  | .iteE c t e, acc => cc_expr e (cc_block t (cc_expr c (acc + 1)))
  | .iteNoElse c t, acc => cc_block t (cc_expr c (acc + 1))
  | .matchE s arms, acc => cc_list arms (cc_expr s (acc + (armsLen arms - 1)))
  | .forLoop _ it b, acc => cc_block b (cc_expr it (acc + 1))
  | .whileLoop c b, acc => cc_block b (cc_expr c (acc + 1))
  | .loopE b, acc => cc_block b (acc + 1)
  | .closure b, acc => cc_expr b (acc + 1)
/-- `cc_expr` over a list. -/
def cc_list : RExprList → Nat → Nat
  | .nil, acc => acc
  | .cons e tl, acc => cc_list tl (cc_expr e acc)
/-- `cc_expr` over a block. -/
def cc_block : RStmtList → Nat → Nat
  | .nil, acc => acc
  | .cons s tl, acc => cc_block tl (cc_stmt s acc)
/-- `cc_expr` over a statement. -/
def cc_stmt : RStmt → Nat → Nat
  | .exprStmt e, acc => cc_expr e acc
  | .localInit _ e, acc => cc_expr e acc
  | _, acc => acc
end

mutual
/-- Sum of an arbitrary per-node weight `w` over a whole expression tree
(spec-side counting; instantiated with the five claim counters). -/
def wSumE (w : RExpr → Nat) : RExpr → Nat
  | .lit l => w (.lit l)
  | .pathE segs => w (.pathE segs)
  | .call line f args => w (.call line f args) + wSumE w f + wSumL w args
  | .methodCall r m args => w (.methodCall r m args) + wSumE w r + wSumL w args
  | .macCall line p toks => w (.macCall line p toks)
  | .binary line op l r => w (.binary line op l r) + wSumE w l + wSumE w r
  | .blockE b => w (.blockE b) + wSumB w b
  | .iteE c t e => w (.iteE c t e) + wSumE w c + wSumB w t + wSumE w e
  | .iteNoElse c t => w (.iteNoElse c t) + wSumE w c + wSumB w t
  | .matchE s arms => w (.matchE s arms) + wSumE w s + wSumL w arms
  | .forLoop pat it b => w (.forLoop pat it b) + wSumE w it + wSumB w b
  | .whileLoop c b => w (.whileLoop c b) + wSumE w c + wSumB w b
  | .loopE b => w (.loopE b) + wSumB w b
  | .closure b => w (.closure b) + wSumE w b
/-- `wSumE` over a list. -/
def wSumL (w : RExpr → Nat) : RExprList → Nat
  | .nil => 0
  | .cons e tl => wSumE w e + wSumL w tl
/-- `wSumE` over a block. -/
def wSumB (w : RExpr → Nat) : RStmtList → Nat
  | .nil => 0
  | .cons s tl => wSumS w s + wSumB w tl
/-- `wSumE` over a statement. -/
def wSumS (w : RExpr → Nat) : RStmt → Nat
  | .exprStmt e => wSumE w e
  | .localInit _ e => wSumE w e
  | _ => 0
end

/-- Weight: `1` per `if` expression. -/
def wIf : RExpr → Nat
  | .iteE _ _ _ => 1
  | .iteNoElse _ _ => 1
  | _ => 0

/-- Weight: number of match arms minus one, per `match` expression. -/
def wMatch : RExpr → Nat
  | .matchE _ arms => armsLen arms - 1
  | _ => 0

/-- Weight: `1` per `for`/`while`/`loop` expression. -/
def wLoop : RExpr → Nat
  | .forLoop _ _ _ => 1
  | .whileLoop _ _ => 1
  | .loopE _ => 1
  | _ => 0

/-- Weight: `1` per closure. -/
def wClosure : RExpr → Nat
  | .closure _ => 1
  | _ => 0

/-- Weight: `1` per short-circuit logical operator. -/
def wLogic : RExpr → Nat
  | .binary _ op _ _ => if op = .andOp ∨ op = .orOp then 1 else 0
  | _ => 0

/-- Per-function entry: `FnComplexityVisitor::new()` seeds the counter at
`1` and walks the function block.  (The other metrics of
`FunctionMetrics` — parameters, nesting, LOC, warnings — are not touched
by any claim and are not modelled.) -/
def fn_cyclomatic (b : RStmtList) : Nat :=
  cc_block b 1

/-- The functions analyzed by `complexity::FileVisitor`, in visit order:
public free functions, and every impl-block function regardless of
visibility. -/
def complexityFns (items : List RItem) : List RFnDef :=
  items.flatMap fun it =>
    match it with
    | .fnItem f => if f.isPublic then [f] else []
    | .implBlock _ fns => fns
    | _ => []

/-- Model of `complexity::analyze_complexity`, restricted to the
(name, cyclomatic-complexity) projection of `ContractMetrics.functions`. -/
def analyze_complexity (file : RFile) : List (String × Nat) :=
  (complexityFns file.items).map fun f => (f.name, fn_cyclomatic f.body)

-- ── Gas/Instruction Estimator (`gas_estimator.rs`) ───────────────────────

/-- Model of `GasEstimationVisitor::estimate_type_size` (the gas table:
no recursion into generic arguments, `Vec`/`Map` flat 128, non-path
types cost 8). -/
def gas_estimate_type_size : RType → Nat
  | .path seg _ =>
      match seg with
      | "u32" | "i32" | "bool" => 4
      | "u64" | "i64" => 8
      | "u128" | "i128" | "I128" | "U128" => 16
      | "Address" => 32
      | "Bytes" | "BytesN" | "String" | "Symbol" => 64
      | "Vec" | "Map" => 128
      | _ => 32
  | _ => 8

/-- Method-call instruction cost of `visit_expr_method_call`. -/
def gas_method_cost (m : String) : Nat :=
  if m == "get" || m == "set" || m == "has" || m == "update" || m == "remove" then
    1000
  else if m == "require_auth" then 500
  else 25

/-- Memory cost of a `let` binding (`visit_local`): the declared type's
estimated size when the pattern is a type ascription, else a flat 8. -/
def gas_local_mem (ty : Option RType) : Nat :=
  match ty with
  | some t => gas_estimate_type_size t
  | none => 8

mutual
/-- Model of the `GasEstimationVisitor` walk; state is
`(instruction_count, memory_bytes)`.  Loop bodies are estimated by a
fresh inner visitor seeded with the base costs `(50, 32)` and folded
back at ×10 plus a 50-instruction overhead; `for` re-visits only the
iterator expression, `while` only the condition, `loop` nothing else. -/
def gas_expr : RExpr → Nat × Nat → Nat × Nat
  | .lit _, st => st
  | .pathE _, st => st
  | .call _ f args, st => gas_list args (gas_expr f (st.1 + 20, st.2))
  | .methodCall r m args, st =>
      gas_list args (gas_expr r (st.1 + gas_method_cost m, st.2))
  | .macCall _ p _, st =>
      if p == ["vec"] || p == ["map"] then (st.1 + 50, st.2 + 128)
      else if p == ["symbol_short"] || p == ["String"] then (st.1 + 10, st.2 + 32)
      else (st.1 + 10, st.2)
  | .binary _ _ l r, st => gas_expr r (gas_expr l (st.1 + 5, st.2))
  | .blockE b, st => gas_block b st
  | .iteE c t e, st => gas_expr e (gas_block t (gas_expr c st))
  | .iteNoElse c t, st => gas_block t (gas_expr c st)
  | .matchE s arms, st => gas_list arms (gas_expr s st)
  | .forLoop _ it b, st =>
      let inner := gas_block b (50, 32)
      gas_expr it (st.1 + 50 + inner.1 * 10, st.2 + inner.2 * 10)
  | .whileLoop c b, st =>
      let inner := gas_block b (50, 32)
      gas_expr c (st.1 + 50 + inner.1 * 10, st.2 + inner.2 * 10)
  | .loopE b, st =>
      let inner := gas_block b (50, 32)
      (st.1 + 50 + inner.1 * 10, st.2 + inner.2 * 10)
  | .closure b, st => gas_expr b st
/-- `gas_expr` over a list. -/
def gas_list : RExprList → Nat × Nat → Nat × Nat
  | .nil, st => st
  | .cons e tl, st => gas_list tl (gas_expr e st)
/-- `gas_expr` over a block. -/
def gas_block : RStmtList → Nat × Nat → Nat × Nat
  | .nil, st => st
  | .cons s tl, st => gas_block tl (gas_stmt s st)
/-- `gas_expr` over a statement.  A bare statement-level macro
(`syn::Stmt::Macro`) contains a `Macro`, not an `ExprMacro`, so the
overridden `visit_expr_macro` hook does not fire for it. -/
def gas_stmt : RStmt → Nat × Nat → Nat × Nat
  | .exprStmt e, st => gas_expr e st
  | .localInit ty e, st => gas_expr e (st.1 + 2, st.2 + gas_local_mem ty)
  | .localNoInit ty, st => (st.1 + 2, st.2 + gas_local_mem ty)
  | .macStmt _ _, st => st
  | .otherStmt, st => st
end

/-- Model of the `GasEstimationReport` finding. -/
structure GasEstimationReport : Type where
  function_name : String
  estimated_instructions : Nat
  estimated_memory_bytes : Nat
  deriving DecidableEq

/-- Estimating a block as its own function: fresh visitor seeded with
the base costs (50 instructions, 32 stack bytes). -/
def estimate_function (b : RStmtList) : Nat × Nat :=
  gas_block b (50, 32)

/-- Model of `GasEstimator::estimate_contract`: one report per public
impl-block function. -/
def estimate_contract (p : Option RFile) : List GasEstimationReport :=
  match p with
  | none => []
  | some file =>
      file.items.flatMap fun it =>
        match it with
        | .implBlock _ fns =>
            fns.filterMap fun f =>
              if f.isPublic then
                some ⟨f.name, (estimate_function f.body).1,
                  (estimate_function f.body).2⟩
              else none
        | _ => []

-- ── Ledger-Size Estimator (`classify_size`, `analyze_ledger_size_impl`) ──

/-- Severity of a ledger size warning. -/
inductive SizeWarningLevel : Type where
  | exceedsLimit
  | approachingLimit
  deriving DecidableEq

/-- Model of the `SizeWarning` finding. -/
structure SizeWarning : Type where
  struct_name : String
  estimated_size : Nat
  limit : Nat
  level : SizeWarningLevel
  deriving DecidableEq

/-- Model of a user-defined custom rule (name, regex pattern source). -/
structure CustomRule : Type where
  name : String
  pattern : String
  deriving DecidableEq

/-- Model of `SanctifyConfig`.  The Rust struct declares the
`approaching_threshold` field twice (an artifact of the source); one
field models both.  `f64` values are modelled as `Rat`. -/
structure SanctifyConfig : Type where
  ignore_paths : List String
  enabled_rules : List String
  ledger_limit : Nat
  approaching_threshold : Rat
  strict_mode : Bool
  custom_rules : List CustomRule
  deriving DecidableEq

/-- The `Default` implementation of `SanctifyConfig`. -/
def defaultConfig : SanctifyConfig :=
  { ignore_paths := ["target", ".git"],
    enabled_rules := ["auth_gaps", "panics", "arithmetic", "ledger_size", "events"],
    ledger_limit := 64000,
    approaching_threshold := 4 / 5,
    strict_mode := false,
    custom_rules := [] }

/-- Models a non-negative `f64 as usize` cast (truncation toward zero). -/
def ratToUsize (q : Rat) : Nat :=
  q.floor.toNat

/-- Model of `has_contracttype`: some attribute path mentions the
`contracttype` identifier. -/
def has_contracttype (attrs : List String) : Bool :=
  attrs.contains "contracttype"

/-- Model of `classify_size` — the classification helper exactly as
written in the source. -/
def classify_size (size limit : Nat) (approaching : Rat) (strict : Bool)
    (strict_threshold : Nat) : Option SizeWarningLevel :=
  if size ≥ limit then some .exceedsLimit
  else if strict && decide (size ≥ strict_threshold) then some .exceedsLimit
  else if (size : Rat) ≥ (limit : Rat) * approaching then some .approachingLimit
  else none

mutual
/-- Model of `Analyzer::estimate_type_size` (the ledger table, with
recursion into `Vec`/`Map`/`Option` generic arguments and fixed-size
arrays). -/
def estimate_type_size : RType → Nat
  | .path seg args =>
      match seg with
      | "u32" | "i32" | "bool" => 4
      | "u64" | "i64" => 8
      | "u128" | "i128" | "I128" | "U128" => 16
      | "Address" => 32
      | "Bytes" | "BytesN" | "String" | "Symbol" => 64
      | "Vec" =>
          match args with
          | .cons inner _ => 8 + estimate_type_size inner
          | .nil => 128
      | "Map" =>
          match args with
          | .nil => 128
          | .cons h tl =>
              let inner := estimate_type_size h + sum_type_sizes tl
              if inner > 0 then 16 + inner * 2 else 128
      | "Option" =>
          match args with
          | .cons inner _ => 1 + estimate_type_size inner
          | .nil => 32
      | _ => 32
  | .array elem (some n) => n * estimate_type_size elem
  | .array _ none => 64
  | .other => 8
/-- Sum of estimated sizes over a type-argument list. -/
def sum_type_sizes : RTypeList → Nat
  | .nil => 0
  | .cons h tl => estimate_type_size h + sum_type_sizes tl
end

/-- Field-type list of a `syn::Fields`. -/
def fieldTypes : RFields → List RType
  | .named tys => tys
  | .unnamed tys => tys
  | .unit => []

/-- Model of `Analyzer::estimate_struct_size`: sum of field sizes. -/
def estimate_struct_size (s : RStructDef) : Nat :=
  ((fieldTypes s.fields).map estimate_type_size).sum

/-- Model of `Analyzer::estimate_enum_size`: 4-byte discriminant plus
the maximum variant field-sum. -/
def estimate_enum_size (e : REnumDef) : Nat :=
  4 + (e.variants.map fun v => ((fieldTypes v).map estimate_type_size).sum).foldl
    Nat.max 0

/-- Model of `Analyzer::analyze_ledger_size_impl`, following the
source's (shadowed) local bindings: the effective outer call of
`classify_size` receives the *absolute count* `(limit × threshold) as
usize` in the fractional `approaching` position and `(limit × 0.5) as
usize` as `strict_threshold`; a warning is pushed only when a second,
inner call — with `strict_threshold` rebound to `limit` itself — also
classifies, and the pushed level is the inner call's. -/
def analyze_ledger_size_impl (cfg : SanctifyConfig) (p : Option RFile) :
    List SizeWarning :=
  match p with
  | none => []
  | some file =>
      let limit := cfg.ledger_limit
      let approaching := ratToUsize ((limit : Rat) * cfg.approaching_threshold)
      let strict := cfg.strict_mode
      let strict_threshold := ratToUsize ((limit : Rat) * (1 / 2))
      let approaching_count := approaching
      let classifyBoth : String → Nat → List SizeWarning := fun name size =>
        match classify_size size limit (approaching_count : Rat) strict
            strict_threshold with
        | some _ =>
            match classify_size size limit cfg.approaching_threshold strict
                limit with
            | some level => [⟨name, size, limit, level⟩]
            | none => []
        | none => []
      file.items.flatMap fun it =>
        match it with
        | .structItem s =>
            if has_contracttype s.attrs then
              classifyBoth s.name (estimate_struct_size s)
            else []
        | .enumItem e =>
            if has_contracttype e.attrs then
              classifyBoth e.name (estimate_enum_size e)
            else []
        | _ => []

/-- The ledger-size classification as the specification words it
(`spec_classify_size` is written from the spec, to be compared against
the implementation): `ExceedsLimit` if `size ≥ limit` or (`strict_mode`
and `size ≥ limit × 0.5`); else `ApproachingLimit` if
`size ≥ limit × approaching_threshold`; else no warning. -/
def spec_classify_size (size limit : Nat) (approaching : Rat) (strict : Bool) :
    Option SizeWarningLevel :=
  if size ≥ limit then some .exceedsLimit
  else if strict && decide ((size : Rat) ≥ (limit : Rat) * (1 / 2)) then
    some .exceedsLimit
  else if (size : Rat) ≥ (limit : Rat) * approaching then some .approachingLimit
  else none

-- ── Storage-Key-Collision Detector (`storage_collision.rs`) ──────────────

/-- Model of `KeyInfo` (the `_value` field is named `value`). -/
structure KeyInfo : Type where
  value : String
  key_type : String
  location : String
  line : Nat
  deriving DecidableEq

/-- Model of the `StorageCollisionIssue` finding. -/
structure StorageCollisionIssue : Type where
  key_value : String
  key_type : String
  location : String
  message : String
  deriving DecidableEq

/-- Second element of an expression list (`i.args[1]`). -/
def secondArg : RExprList → Option RExpr
  | .cons _ (.cons e _) => some e
  | _ => none

/-- The `Symbol::new(<env>, "<literal>")` collection test of
`visit_expr_call`: a call whose callee path has at least two segments,
the first two being `Symbol` and `new`, with at least two arguments, the
second a string literal. -/
def symbolNewKey (f : RExpr) (args : RExprList) : Option String :=
  match f with
  | .pathE segs =>
      match segs with
      | s1 :: s2 :: _ =>
          if s1 == "Symbol" && s2 == "new" then
            match secondArg args with
            | some (.lit (.str s)) => some s
            | _ => none
          else none
      | _ => none
  | _ => none

mutual
/-- Keys collected by the `StorageVisitor` walk of an expression, in
traversal order: `Symbol::new` second-argument literals and
`symbol_short!` token values (quotes trimmed); the walk descends into
every child (default `syn::visit`). -/
def collectE : RExpr → List KeyInfo
  | .lit _ => []
  | .pathE _ => []
  | .call line f args =>
      (match symbolNewKey f args with
       | some s => [⟨s, "Symbol::new", "inline", line⟩]
       | none => []) ++ collectE f ++ collectL args
  | .methodCall r _ args => collectE r ++ collectL args
  | .macCall line p toks =>
      if p.getLastD "" == "symbol_short" then
        [⟨trimQuotes toks, "symbol_short!", "inline", line⟩]
      else []
  | .binary _ _ l r => collectE l ++ collectE r
  | .blockE b => collectB b
  | .iteE c t e => collectE c ++ collectB t ++ collectE e
  | .iteNoElse c t => collectE c ++ collectB t
  | .matchE s arms => collectE s ++ collectL arms
  | .forLoop _ it b => collectE it ++ collectB b
  | .whileLoop c b => collectE c ++ collectB b
  | .loopE b => collectB b
  | .closure b => collectE b
/-- `collectE` over a list. -/
def collectL : RExprList → List KeyInfo
  | .nil => []
  | .cons e tl => collectE e ++ collectL tl
/-- `collectE` over a block. -/
def collectB : RStmtList → List KeyInfo
  | .nil => []
  | .cons s tl => collectS s ++ collectB tl
/-- `collectE` over a statement. -/
def collectS : RStmt → List KeyInfo
  | .exprStmt e => collectE e
  | .localInit _ e => collectE e
  | _ => []
end

/-- Keys collected from one item: a `const` initialized to a string
literal contributes under its own identifier as location
(`visit_item_const`), then the walk descends into bodies. -/
def collectItem : RItem → List KeyInfo
  | .constItem line nm v =>
      (match v with
       | .lit (.str s) => [⟨s, "const", nm, line⟩]
       | _ => []) ++ collectE v
  | .fnItem f => collectB f.body
  | .implBlock _ fns => fns.flatMap fun f => collectB f.body
  | _ => []

/-- All keys collected from a file, in traversal order. -/
def collectFile (file : RFile) : List KeyInfo :=
  file.items.flatMap collectItem

/-- The distinct key values in first-occurrence order. -/
def dedupKeys (occs : List KeyInfo) : List String :=
  occs.foldl (fun acc k => if acc.contains k.value then acc else acc ++ [k.value]) []

/-- The entries of the visitor's `keys: HashMap<String, Vec<KeyInfo>>`:
one entry per distinct value, carrying that value's occurrences in
insertion (traversal) order.  The hash map's *iteration* order over
these entries is unspecified; theorems quantify over any permutation of
this list. -/
def collectGroups (occs : List KeyInfo) : List (String × List KeyInfo) :=
  (dedupKeys occs).map fun v => (v, occs.filter fun k => k.value == v)

/-- The issues `final_check` emits for one colliding group: one per
occurrence, each cross-referencing all the *other* occurrences in its
message. -/
def groupIssues (v : String) (infos : List KeyInfo) : List StorageCollisionIssue :=
  infos.enum.map fun pr =>
    { key_value := v,
      key_type := pr.2.key_type,
      location := pr.2.location ++ ":" ++ toString pr.2.line,
      message := "Potential storage key collision: value '" ++ v ++
        "' is also used in: " ++
        String.intercalate ", "
          ((infos.enum.filter fun pr2 => pr2.1 ≠ pr.1).map fun pr2 =>
            pr2.2.location ++ " (line " ++ toString pr2.2.line ++ ")") }

/-- Model of `StorageVisitor::final_check` over the map entries in a
given iteration order: groups with more than one occurrence emit one
issue per occurrence; singletons emit nothing. -/
def final_check (entries : List (String × List KeyInfo)) :
    List StorageCollisionIssue :=
  entries.flatMap fun pr =>
    if pr.2.length > 1 then groupIssues pr.1 pr.2 else []

/-- Model of `Analyzer::scan_storage_collisions_impl`; `entries` is the
hash map's iteration order (constrained to a permutation of
`collectGroups` in the theorems). -/
def scan_storage_collisions_impl (p : Option RFile)
    (entries : List (String × List KeyInfo)) : List StorageCollisionIssue :=
  match p with
  | none => []
  | some _ => final_check entries

-- ── Analyzer facade: failure isolation (`with_panic_guard`) ──────────────

/-- Model of `with_panic_guard`: `catch_unwind` returning `R::default()`
on a panic.  The `Except` argument is the guarded closure's outcome. -/
def with_panic_guard {R : Type} (dflt : R) (comp : Except String R) : R :=
  match comp with
  | .ok r => r
  | .error _ => dflt

/-- Outcome of running a total model computation under a possible
traversal panic: the `panic` parameter records whether the Rust
traversal raised (the Lean model itself is total). -/
def runGuarded {R : Type} (panic : Option String) (r : R) : Except String R :=
  match panic with
  | some e => .error e
  | none => .ok r

/-- Guarded entry point `Analyzer::scan_auth_gaps`. -/
def scan_auth_gaps (p : Option RFile) (panic : Option String) : List String :=
  with_panic_guard [] (runGuarded panic (scan_auth_gaps_impl p))

/-- Guarded entry point `Analyzer::scan_panics`. -/
def scan_panics (p : Option RFile) (panic : Option String) : List PanicIssue :=
  with_panic_guard [] (runGuarded panic (scan_panics_impl p))

/-- Guarded entry point `Analyzer::scan_arithmetic_overflow`. -/
def scan_arithmetic_overflow (p : Option RFile) (panic : Option String) :
    List ArithmeticIssue :=
  with_panic_guard [] (runGuarded panic (scan_arithmetic_overflow_impl p))

/-- Guarded entry point `Analyzer::analyze_ledger_size`. -/
def analyze_ledger_size (cfg : SanctifyConfig) (p : Option RFile)
    (panic : Option String) : List SizeWarning :=
  with_panic_guard [] (runGuarded panic (analyze_ledger_size_impl cfg p))

/-- Guarded entry point `Analyzer::scan_storage_collisions`. -/
def scan_storage_collisions (p : Option RFile)
    (entries : List (String × List KeyInfo)) (panic : Option String) :
    List StorageCollisionIssue :=
  with_panic_guard [] (runGuarded panic (scan_storage_collisions_impl p entries))

/-- Guarded entry point `Analyzer::scan_gas_estimation`
(`scan_gas_estimation_impl` delegates to `GasEstimator::estimate_contract`). -/
def scan_gas_estimation (p : Option RFile) (panic : Option String) :
    List GasEstimationReport :=
  with_panic_guard [] (runGuarded panic (estimate_contract p))

/-- Shorthand for the five claim-side counts of a subtree. -/
def ccSpecE (e : RExpr) : Nat :=
  wSumE wIf e + wSumE wMatch e + wSumE wLoop e + wSumE wClosure e + wSumE wLogic e

/-- `ccSpecE` over a list. -/
def ccSpecL (l : RExprList) : Nat :=
  wSumL wIf l + wSumL wMatch l + wSumL wLoop l + wSumL wClosure l + wSumL wLogic l

/-- `ccSpecE` over a block. -/
def ccSpecB (b : RStmtList) : Nat :=
  wSumB wIf b + wSumB wMatch b + wSumB wLoop b + wSumB wClosure b + wSumB wLogic b

/-- `ccSpecE` over a statement. -/
def ccSpecS (s : RStmt) : Nat :=
  wSumS wIf s + wSumS wMatch s + wSumS wLoop s + wSumS wClosure s + wSumS wLogic s

-- ── Concrete inputs for counterexamples and witnesses ────────────────────

/-- Every function of a file, free or impl-method (what the C6 claim
says the panic scanner walks). -/
def allFnsOf (items : List RItem) : List RFnDef :=
  items.flatMap fun it =>
    match it with
    | .fnItem f => [f]
    | .implBlock _ fns => fns
    | _ => []

/-- C6 counterexample: a public *free* function whose body is a bare
`panic!("x")` statement. -/
def c6File : RFile :=
  ⟨[.fnItem ⟨"boom", true, 1, .cons (.macStmt ["panic"] "\"x\"") .nil⟩]⟩

/-- C10 witness: an impl method containing one `.unwrap()`. -/
def c10File : RFile :=
  ⟨[.implBlock "C"
      [⟨"getter", true, 1,
        .cons (.exprStmt (.methodCall (.pathE ["x"]) "unwrap" .nil)) .nil⟩]]⟩

/-- C5 witness: two constants sharing the value `collision` plus one
singleton. -/
def c5File : RFile :=
  ⟨[.constItem 1 "KEY1" (.lit (.str "collision")),
    .constItem 2 "KEY2" (.lit (.str "collision")),
    .constItem 3 "KEY3" (.lit (.str "solo"))]⟩

/-- The two collected occurrences of `collision` in `c5File`. -/
def c5Occs : List KeyInfo :=
  [⟨"collision", "const", "KEY1", 1⟩, ⟨"collision", "const", "KEY2", 2⟩]

/-- C8 input: two distinct colliding values (`a` twice, `b` twice), so
the map has two groups whose iteration order is observable. -/
def c8File : RFile :=
  ⟨[.constItem 1 "K1" (.lit (.str "a")),
    .constItem 2 "K2" (.lit (.str "a")),
    .constItem 3 "K3" (.lit (.str "b")),
    .constItem 4 "K4" (.lit (.str "b"))]⟩

/-- One valid iteration order of `c8File`'s key map. -/
def c8e1 : List (String × List KeyInfo) :=
  collectGroups (collectFile c8File)

/-- The opposite iteration order of the same key map. -/
def c8e2 : List (String × List KeyInfo) :=
  (collectGroups (collectFile c8File)).reverse

/-- C3 failing input: a `#[contracttype]` struct with one `Bytes` field
(estimated 64 bytes). -/
def c3Struct : RStructDef :=
  ⟨"Session", ["contracttype"], .named [.path "Bytes" .nil]⟩

/-- The file holding `c3Struct`. -/
def c3File : RFile :=
  ⟨[.structItem c3Struct]⟩

/-- C3 failing configuration: limit 70, default threshold 0.8, strict
mode off — `64` lies in the approaching band `[56, 70)`. -/
def c3Config : SanctifyConfig :=
  { defaultConfig with ledger_limit := 70 }

-- ━━ Theorems ━━━━━━━━━━━━━━━━━━━━━━━━━━━━━━━━━━━━━━━━━━━━━━━━━━━━━━━━━━━━

mutual
/-- The accumulated `(has_mutation, has_auth)` pair is exactly the initial
pair or-ed with the pure containment predicates. -/
theorem check_expr_eq (e : RExpr) (st : Bool × Bool) :
    check_expr e st = (st.1 || mutReachE e, st.2 || authReachE e) := by
  cases e with
  | call line f args =>
      by_cases h : callFuncAuth f = true <;>
        simp [check_expr, mutReachE, authReachE, h, check_expr_list_eq args,
          Bool.or_assoc]
  | methodCall r m args =>
      simp only [check_expr, mutReachE, authReachE]
      by_cases h1 : (isMutMethod m && containsStorageKeyword (receiverStr r m args)) = true <;>
        by_cases h2 : isAuthName m = true <;>
          simp [h1, h2, check_expr_eq r, check_expr_list_eq args, Bool.or_assoc,
            Bool.or_comm, Bool.or_left_comm]
  | blockE b => simpa [check_expr, mutReachE, authReachE] using check_fn_body_eq b st
  | iteE c t els =>
      simp [check_expr, mutReachE, authReachE, check_expr_eq c, check_fn_body_eq,
        check_expr_eq els, Bool.or_assoc]
  | iteNoElse c t =>
      simp [check_expr, mutReachE, authReachE, check_expr_eq c, check_fn_body_eq,
        Bool.or_assoc]
  | matchE s arms =>
      simp [check_expr, mutReachE, authReachE, check_expr_eq s, check_expr_list_eq,
        Bool.or_assoc]
  | lit l => simp [check_expr, mutReachE, authReachE]
  | pathE segs => simp [check_expr, mutReachE, authReachE]
  | macCall a b c => simp [check_expr, mutReachE, authReachE]
  | binary a b c d => simp [check_expr, mutReachE, authReachE]
  | forLoop a b c => simp [check_expr, mutReachE, authReachE]
  | whileLoop a b => simp [check_expr, mutReachE, authReachE]
  | loopE a => simp [check_expr, mutReachE, authReachE]
  | closure a => simp [check_expr, mutReachE, authReachE]
/-- List version of `check_expr_eq`. -/
theorem check_expr_list_eq (l : RExprList) (st : Bool × Bool) :
    check_expr_list l st = (st.1 || mutReachL l, st.2 || authReachL l) := by
  cases l with
  | nil => simp [check_expr_list, mutReachL, authReachL]
  | cons e tl =>
      simp [check_expr_list, mutReachL, authReachL, check_expr_eq e,
        check_expr_list_eq tl, Bool.or_assoc]
/-- Block version of `check_expr_eq`. -/
theorem check_fn_body_eq (b : RStmtList) (st : Bool × Bool) :
    check_fn_body b st = (st.1 || mutReachB b, st.2 || authReachB b) := by
  cases b with
  | nil => simp [check_fn_body, mutReachB, authReachB]
  | cons s tl =>
      simp [check_fn_body, mutReachB, authReachB, check_auth_stmt_eq s,
        check_fn_body_eq tl, Bool.or_assoc]
/-- Statement version of `check_expr_eq`. -/
theorem check_auth_stmt_eq (s : RStmt) (st : Bool × Bool) :
    check_auth_stmt s st = (st.1 || mutReachS s, st.2 || authReachS s) := by
  cases s with
  | exprStmt e => simpa [check_auth_stmt, mutReachS, authReachS] using check_expr_eq e st
  | localInit ty e => simpa [check_auth_stmt, mutReachS, authReachS] using check_expr_eq e st
  | localNoInit ty => simp [check_auth_stmt, mutReachS, authReachS]
  | macStmt p toks =>
      by_cases h : (p == ["require_auth"] || p == ["require_auth_for_args"]) = true <;>
        simp [check_auth_stmt, mutReachS, authReachS, h]
  | otherStmt => simp [check_auth_stmt, mutReachS, authReachS]
end

/-- Characterization of `scan_auth_gaps_impl` body processing over one
impl block's function list. -/
theorem auth_gap_fns_eq (fns : List RFnDef) :
    auth_gap_fns fns =
    ((fns.filter fun f =>
        f.isPublic && mutReachB f.body && !authReachB f.body).map
      (fun f => f.name)) := by
  induction fns with
  | nil => rfl
  | cons f tl ih =>
      by_cases hp : f.isPublic = true <;>
        by_cases hm : mutReachB f.body = true <;>
          by_cases ha : authReachB f.body = true <;>
            simp_all [auth_gap_fns, List.filterMap_cons, List.filter_cons,
              check_fn_body_eq]

/-- The auth-gap scan lists exactly the names of the public impl-block
functions whose traversal finds a mutation and no authorization call, in
declaration order. -/
theorem scan_auth_gaps_eq (items : List RItem) :
    scan_auth_gaps_impl (some ⟨items⟩) =
      ((implFnsOf ⟨items⟩).filter fun f =>
          f.isPublic && mutReachB f.body && !authReachB f.body).map
        (fun f => f.name) := by
  induction items with
  | nil => rfl
  | cons it tl ih =>
      cases it <;>
        simp only [scan_auth_gaps_impl, implFnsOf, List.flatMap_cons] at ih ⊢ <;>
        first
          | rw [auth_gap_fns_eq, List.filter_append, List.map_append, ih]
          | rw [List.nil_append, List.nil_append, ih]

mutual
/-- The panic accumulator appends exactly one issue per occurrence, in
traversal order. -/
theorem check_expr_panics_eq (n : String) (e : RExpr) (acc : List PanicIssue) :
    check_expr_panics n e acc = acc ++ (panicOccE e).map (mkPanicIssue n) := by
  cases e with
  | macCall line p toks =>
      by_cases h : (p == ["panic"]) = true <;>
        simp [check_expr_panics, panicOccE, h]
  | methodCall r m args =>
      by_cases h : (m == "unwrap" || m == "expect") = true <;>
        simp [check_expr_panics, panicOccE, h, check_expr_panics_eq n r,
          check_expr_panics_list_eq n args, List.append_assoc]
  | call line f args =>
      simp [check_expr_panics, panicOccE, check_expr_panics_list_eq n args]
  | blockE b => simp [check_expr_panics, panicOccE, check_fn_panics_eq n b]
  | iteE c t e =>
      simp [check_expr_panics, panicOccE, check_expr_panics_eq n c,
        check_fn_panics_eq n t, check_expr_panics_eq n e, List.append_assoc]
  | iteNoElse c t =>
      simp [check_expr_panics, panicOccE, check_expr_panics_eq n c,
        check_fn_panics_eq n t, List.append_assoc]
  | matchE s arms =>
      simp [check_expr_panics, panicOccE, check_expr_panics_eq n s,
        check_expr_panics_list_eq n arms, List.append_assoc]
  | lit l => simp [check_expr_panics, panicOccE]
  | pathE segs => simp [check_expr_panics, panicOccE]
  | binary a b c d => simp [check_expr_panics, panicOccE]
  | forLoop a b c => simp [check_expr_panics, panicOccE]
  | whileLoop a b => simp [check_expr_panics, panicOccE]
  | loopE a => simp [check_expr_panics, panicOccE]
  | closure a => simp [check_expr_panics, panicOccE]
/-- List version of `check_expr_panics_eq`. -/
theorem check_expr_panics_list_eq (n : String) (l : RExprList)
    (acc : List PanicIssue) :
    check_expr_panics_list n l acc = acc ++ (panicOccL l).map (mkPanicIssue n) := by
  cases l with
  | nil => simp [check_expr_panics_list, panicOccL]
  | cons e tl =>
      simp [check_expr_panics_list, panicOccL, check_expr_panics_eq n e,
        check_expr_panics_list_eq n tl, List.append_assoc]
/-- Block version of `check_expr_panics_eq`. -/
theorem check_fn_panics_eq (n : String) (b : RStmtList) (acc : List PanicIssue) :
    check_fn_panics n b acc = acc ++ (panicOccB b).map (mkPanicIssue n) := by
  cases b with
  | nil => simp [check_fn_panics, panicOccB]
  | cons s tl =>
      simp [check_fn_panics, panicOccB, check_stmt_panics_eq n s,
        check_fn_panics_eq n tl, List.append_assoc]
/-- Statement version of `check_expr_panics_eq`. -/
theorem check_stmt_panics_eq (n : String) (s : RStmt) (acc : List PanicIssue) :
    check_stmt_panics n s acc = acc ++ (panicOccS s).map (mkPanicIssue n) := by
  cases s with
  | exprStmt e => simpa [check_stmt_panics, panicOccS] using check_expr_panics_eq n e acc
  | localInit ty e =>
      simpa [check_stmt_panics, panicOccS] using check_expr_panics_eq n e acc
  | localNoInit ty => simp [check_stmt_panics, panicOccS]
  | macStmt p toks =>
      by_cases h : (p == ["panic"]) = true <;> simp [check_stmt_panics, panicOccS, h]
  | otherStmt => simp [check_stmt_panics, panicOccS]
end

/-- `cfElig` distributes over disjunction. -/
theorem cfElig_or (cf : Option String) (q : String × String) (a b : Bool) :
    cfElig cf q (a || b) = (cfElig cf q a || cfElig cf q b) := by
  cases cf <;> simp [cfElig, Bool.and_or_distrib_left]

/-- Seen-set effect of one `visit_expr_binary` step. -/
theorem arith_binary_step_seen (cf : Option String) (line : Nat) (op : RBinOp)
    (l r : RExpr) (st : ArithState) (q : String × String) :
    q ∈ (arith_binary_step cf line op l r st).seen ↔
      q ∈ st.seen ∨ cfElig cf q (eligHere q.2 op l r) = true := by
  unfold arith_binary_step cfElig eligHere
  cases cf with
  | none => simp
  | some n =>
      cases hc : classify_op op with
      | none => simp
      | some pr =>
          obtain ⟨o, sugg⟩ := pr
          by_cases hl : is_string_literal l = true <;>
            by_cases hr : is_string_literal r = true <;>
              simp [hl, hr]
          by_cases hs : (n, o) ∈ st.seen <;>
            simp [List.elem_eq_mem, hs]
          · intro h1 h2
            obtain ⟨q1, q2⟩ := q
            simp_all
          · obtain ⟨q1, q2⟩ := q
            simp [Prod.ext_iff]
            tauto

mutual
/-- The de-duplication set after visiting `e` contains exactly the old
pairs plus `(current_fn, o)` for each operator `o` with an eligible
occurrence in `e`. -/
theorem arith_expr_seen (cf : Option String) (e : RExpr) (st : ArithState)
    (q : String × String) :
    q ∈ (arith_expr cf e st).seen ↔
      q ∈ st.seen ∨ cfElig cf q (eligE q.2 e) = true := by
  cases e with
  | binary line op l r =>
      simp only [arith_expr, eligE, arith_expr_seen cf r, arith_expr_seen cf l,
        arith_binary_step_seen, cfElig_or, Bool.or_eq_true]
      tauto
  | call line f args =>
      simp only [arith_expr, eligE, arith_expr_list_seen cf args,
        arith_expr_seen cf f, cfElig_or, Bool.or_eq_true]
      tauto
  | methodCall r m args =>
      simp only [arith_expr, eligE, arith_expr_list_seen cf args,
        arith_expr_seen cf r, cfElig_or, Bool.or_eq_true]
      tauto
  | macCall a b c => simp [arith_expr, eligE, cfElig]; cases cf <;> simp [cfElig]
  | blockE b =>
      simp only [arith_expr, eligE, arith_block_seen cf b]
  | iteE c t e =>
      simp only [arith_expr, eligE, arith_expr_seen cf e, arith_block_seen cf t,
        arith_expr_seen cf c, cfElig_or, Bool.or_eq_true]
      tauto
  | iteNoElse c t =>
      simp only [arith_expr, eligE, arith_block_seen cf t, arith_expr_seen cf c,
        cfElig_or, Bool.or_eq_true]
      tauto
  | matchE s arms =>
      simp only [arith_expr, eligE, arith_expr_list_seen cf arms,
        arith_expr_seen cf s, cfElig_or, Bool.or_eq_true]
      tauto
  | forLoop pat it b =>
      simp only [arith_expr, eligE, arith_block_seen cf b, arith_expr_seen cf it,
        cfElig_or, Bool.or_eq_true]
      tauto
  | whileLoop c b =>
      simp only [arith_expr, eligE, arith_block_seen cf b, arith_expr_seen cf c,
        cfElig_or, Bool.or_eq_true]
      tauto
  | loopE b => simp only [arith_expr, eligE, arith_block_seen cf b]
  | closure b => simp only [arith_expr, eligE, arith_expr_seen cf b]
  | lit l => cases cf <;> simp [arith_expr, eligE, cfElig]
  | pathE segs => cases cf <;> simp [arith_expr, eligE, cfElig]
/-- List version of `arith_expr_seen`. -/
theorem arith_expr_list_seen (cf : Option String) (l : RExprList) (st : ArithState)
    (q : String × String) :
    q ∈ (arith_expr_list cf l st).seen ↔
      q ∈ st.seen ∨ cfElig cf q (eligL q.2 l) = true := by
  cases l with
  | nil => cases cf <;> simp [arith_expr_list, eligL, cfElig]
  | cons e tl =>
      simp only [arith_expr_list, eligL, arith_expr_list_seen cf tl,
        arith_expr_seen cf e, cfElig_or, Bool.or_eq_true]
      tauto
/-- Block version of `arith_expr_seen`. -/
theorem arith_block_seen (cf : Option String) (b : RStmtList) (st : ArithState)
    (q : String × String) :
    q ∈ (arith_block cf b st).seen ↔
      q ∈ st.seen ∨ cfElig cf q (eligB q.2 b) = true := by
  cases b with
  | nil => cases cf <;> simp [arith_block, eligB, cfElig]
  | cons s tl =>
      simp only [arith_block, eligB, arith_block_seen cf tl, arith_stmt_seen cf s,
        cfElig_or, Bool.or_eq_true]
      tauto
/-- Statement version of `arith_expr_seen`. -/
theorem arith_stmt_seen (cf : Option String) (s : RStmt) (st : ArithState)
    (q : String × String) :
    q ∈ (arith_stmt cf s st).seen ↔
      q ∈ st.seen ∨ cfElig cf q (eligS q.2 s) = true := by
  cases s with
  | exprStmt e => simpa [arith_stmt, eligS] using arith_expr_seen cf e st q
  | localInit ty e => simpa [arith_stmt, eligS] using arith_expr_seen cf e st q
  | localNoInit ty => cases cf <;> simp [arith_stmt, eligS, cfElig]
  | macStmt p toks => cases cf <;> simp [arith_stmt, eligS, cfElig]
  | otherStmt => cases cf <;> simp [arith_stmt, eligS, cfElig]
end

/-- One `visit_expr_binary` step preserves the counting invariant. -/
theorem arith_binary_step_inv (cf : Option String) (line : Nat) (op : RBinOp)
    (l r : RExpr) (st : ArithState) (h : ArithInv st) :
    ArithInv (arith_binary_step cf line op l r st) := by
  unfold arith_binary_step
  split
  next ncf o sugg heq =>
    split
    next hb =>
      split
      next hs => exact h
      next hs =>
        have hs' : (ncf, o) ∉ st.seen := by
          simpa [List.elem_eq_mem] using hs
        intro q
        simp only [List.countP_append]
        by_cases hq : q = (ncf, o)
        · subst hq
          have h0 := h (ncf, o)
          rw [if_neg hs'] at h0
          simp [h0, List.countP_cons]
        · have h0 := h q
          have hne : ¬(ncf == q.1 && o == q.2) = true := by
            obtain ⟨q1, q2⟩ := q
            simp only [Bool.and_eq_true, beq_iff_eq]
            rintro ⟨rfl, rfl⟩
            exact hq rfl
          simp [List.countP_cons, hne, h0, List.mem_cons, hq]
    next hb => exact h
  next => exact h

mutual
/-- The whole `ArithVisitor` expression walk preserves the counting
invariant. -/
theorem arith_expr_inv (cf : Option String) (e : RExpr) (st : ArithState)
    (h : ArithInv st) : ArithInv (arith_expr cf e st) := by
  cases e with
  | binary line op l r =>
      exact arith_expr_inv cf r _
        (arith_expr_inv cf l _ (arith_binary_step_inv cf line op l r st h))
  | call line f args =>
      exact arith_expr_list_inv cf args _ (arith_expr_inv cf f st h)
  | methodCall r m args =>
      exact arith_expr_list_inv cf args _ (arith_expr_inv cf r st h)
  | macCall a b c => exact h
  | blockE b => exact arith_block_inv cf b st h
  | iteE c t e =>
      exact arith_expr_inv cf e _ (arith_block_inv cf t _ (arith_expr_inv cf c st h))
  | iteNoElse c t => exact arith_block_inv cf t _ (arith_expr_inv cf c st h)
  | matchE s arms =>
      exact arith_expr_list_inv cf arms _ (arith_expr_inv cf s st h)
  | forLoop pat it b => exact arith_block_inv cf b _ (arith_expr_inv cf it st h)
  | whileLoop c b => exact arith_block_inv cf b _ (arith_expr_inv cf c st h)
  | loopE b => exact arith_block_inv cf b st h
  | closure b => exact arith_expr_inv cf b st h
  | lit l => exact h
  | pathE segs => exact h
/-- List version of `arith_expr_inv`. -/
theorem arith_expr_list_inv (cf : Option String) (l : RExprList) (st : ArithState)
    (h : ArithInv st) : ArithInv (arith_expr_list cf l st) := by
  cases l with
  | nil => exact h
  | cons e tl => exact arith_expr_list_inv cf tl _ (arith_expr_inv cf e st h)
/-- Block version of `arith_expr_inv`. -/
theorem arith_block_inv (cf : Option String) (b : RStmtList) (st : ArithState)
    (h : ArithInv st) : ArithInv (arith_block cf b st) := by
  cases b with
  | nil => exact h
  | cons s tl => exact arith_block_inv cf tl _ (arith_stmt_inv cf s st h)
/-- Statement version of `arith_expr_inv`. -/
theorem arith_stmt_inv (cf : Option String) (s : RStmt) (st : ArithState)
    (h : ArithInv st) : ArithInv (arith_stmt cf s st) := by
  cases s with
  | exprStmt e => exact arith_expr_inv cf e st h
  | localInit ty e => exact arith_expr_inv cf e st h
  | localNoInit ty => exact h
  | macStmt p toks => exact h
  | otherStmt => exact h
end

/-- Seen-set characterization over an impl block's function list fold. -/
theorem arith_fns_fold_seen (fns : List RFnDef) (st : ArithState)
    (q : String × String) :
    q ∈ (fns.foldl (fun st f => arith_block (some f.name) f.body st) st).seen ↔
      q ∈ st.seen ∨
        (fns.any fun f => f.name == q.1 && eligB q.2 f.body) = true := by
  induction fns generalizing st with
  | nil => simp
  | cons f tl ih =>
      simp only [List.foldl_cons, List.any_cons, ih, arith_block_seen, cfElig,
        Bool.or_eq_true, Bool.and_eq_true, beq_iff_eq]
      constructor
      · rintro ((h | ⟨h1, h2⟩) | h)
        · exact Or.inl h
        · exact Or.inr (Or.inl ⟨h1.symm, h2⟩)
        · exact Or.inr (Or.inr h)
      · rintro (h | ⟨h1, h2⟩ | h)
        · exact Or.inl (Or.inl h)
        · exact Or.inl (Or.inr ⟨h1.symm, h2⟩)
        · exact Or.inr h

/-- Inv preservation over an impl block's function list fold. -/
theorem arith_fns_fold_inv (fns : List RFnDef) (st : ArithState)
    (h : ArithInv st) :
    ArithInv (fns.foldl (fun st f => arith_block (some f.name) f.body st) st) := by
  induction fns generalizing st with
  | nil => exact h
  | cons f tl ih => exact ih _ (arith_block_inv _ _ _ h)

/-- Seen-set characterization of one item. -/
theorem arith_item_seen (it : RItem) (st : ArithState) (q : String × String) :
    q ∈ (arith_item it st).seen ↔
      q ∈ st.seen ∨ eligItemB it q.1 q.2 = true := by
  cases it with
  | implBlock selfTy fns =>
      simpa [arith_item, eligItemB] using arith_fns_fold_seen fns st q
  | fnItem f =>
      simp only [arith_item, eligItemB, arith_block_seen, cfElig,
        Bool.and_eq_true, beq_iff_eq]
      constructor
      · rintro (h | ⟨h1, h2⟩)
        · exact Or.inl h
        · exact Or.inr ⟨h1.symm, h2⟩
      · rintro (h | ⟨h1, h2⟩)
        · exact Or.inl h
        · exact Or.inr ⟨h1.symm, h2⟩
  | constItem line nm v =>
      simp [arith_item, eligItemB, arith_expr_seen, cfElig]
  | structItem s => simp [arith_item, eligItemB]
  | enumItem e => simp [arith_item, eligItemB]
  | useItem => simp [arith_item, eligItemB]
  | otherItem => simp [arith_item, eligItemB]

/-- Inv preservation of one item. -/
theorem arith_item_inv (it : RItem) (st : ArithState) (h : ArithInv st) :
    ArithInv (arith_item it st) := by
  cases it with
  | implBlock selfTy fns => exact arith_fns_fold_inv fns st h
  | fnItem f => exact arith_block_inv _ _ _ h
  | constItem line nm v => exact arith_expr_inv _ _ _ h
  | structItem s => exact h
  | enumItem e => exact h
  | useItem => exact h
  | otherItem => exact h

/-- Seen-set characterization over the item list. -/
theorem arith_items_seen (items : List RItem) (st : ArithState)
    (q : String × String) :
    q ∈ (arith_items items st).seen ↔
      q ∈ st.seen ∨ eligFile items q.1 q.2 = true := by
  induction items generalizing st with
  | nil => simp [arith_items, eligFile]
  | cons it tl ih =>
      simp only [arith_items, eligFile, List.any_cons, Bool.or_eq_true, ih,
        arith_item_seen]
      simp [eligFile]
      tauto

/-- Inv preservation over the item list. -/
theorem arith_items_inv (items : List RItem) (st : ArithState)
    (h : ArithInv st) : ArithInv (arith_items items st) := by
  induction items generalizing st with
  | nil => exact h
  | cons it tl ih => exact ih _ (arith_item_inv it st h)

mutual
/-- The cyclomatic accumulator equals its start plus the five claim-side
counts. -/
theorem cc_expr_eq (e : RExpr) (acc : Nat) :
    cc_expr e acc = acc + ccSpecE e := by
  cases e with
  | lit l => simp [cc_expr, ccSpecE, wSumE, wIf, wMatch, wLoop, wClosure, wLogic]
  | pathE segs =>
      simp [cc_expr, ccSpecE, wSumE, wIf, wMatch, wLoop, wClosure, wLogic]
  | call line f args =>
      simp only [cc_expr, ccSpecE, wSumE, wIf, wMatch, wLoop, wClosure, wLogic,
        cc_expr_eq f, cc_list_eq args]
      try simp only [ccSpecE, ccSpecL, ccSpecB, ccSpecS, wSumE, wSumL, wSumB, wSumS]
      try omega
  | methodCall r m args =>
      simp only [cc_expr, ccSpecE, wSumE, wIf, wMatch, wLoop, wClosure, wLogic,
        cc_expr_eq r, cc_list_eq args]
      try simp only [ccSpecE, ccSpecL, ccSpecB, ccSpecS, wSumE, wSumL, wSumB, wSumS]
      try omega
  | macCall line p toks =>
      simp [cc_expr, ccSpecE, wSumE, wIf, wMatch, wLoop, wClosure, wLogic]
  | binary line op l r =>
      simp only [cc_expr, ccSpecE, wSumE, wIf, wMatch, wLoop, wClosure, wLogic,
        cc_expr_eq l, cc_expr_eq r]
      try simp only [ccSpecE, ccSpecL, ccSpecB, ccSpecS, wSumE, wSumL, wSumB, wSumS]
      try omega
  | blockE b =>
      simp only [cc_expr, ccSpecE, wSumE, wIf, wMatch, wLoop, wClosure, wLogic,
        cc_block_eq b]
      try simp only [ccSpecE, ccSpecL, ccSpecB, ccSpecS, wSumE, wSumL, wSumB, wSumS]
      try omega
  | iteE c t e =>
      simp only [cc_expr, ccSpecE, wSumE, wIf, wMatch, wLoop, wClosure, wLogic,
        cc_expr_eq c, cc_block_eq t, cc_expr_eq e]
      try simp only [ccSpecE, ccSpecL, ccSpecB, ccSpecS, wSumE, wSumL, wSumB, wSumS]
      try omega
  | iteNoElse c t =>
      simp only [cc_expr, ccSpecE, wSumE, wIf, wMatch, wLoop, wClosure, wLogic,
        cc_expr_eq c, cc_block_eq t]
      try simp only [ccSpecE, ccSpecL, ccSpecB, ccSpecS, wSumE, wSumL, wSumB, wSumS]
      try omega
  | matchE s arms =>
      simp only [cc_expr, ccSpecE, wSumE, wIf, wMatch, wLoop, wClosure, wLogic,
        cc_expr_eq s, cc_list_eq arms]
      try simp only [ccSpecE, ccSpecL, ccSpecB, ccSpecS, wSumE, wSumL, wSumB, wSumS]
      try omega
  | forLoop pat it b =>
      simp only [cc_expr, ccSpecE, wSumE, wIf, wMatch, wLoop, wClosure, wLogic,
        cc_expr_eq it, cc_block_eq b]
      try simp only [ccSpecE, ccSpecL, ccSpecB, ccSpecS, wSumE, wSumL, wSumB, wSumS]
      try omega
  | whileLoop c b =>
      simp only [cc_expr, ccSpecE, wSumE, wIf, wMatch, wLoop, wClosure, wLogic,
        cc_expr_eq c, cc_block_eq b]
      try simp only [ccSpecE, ccSpecL, ccSpecB, ccSpecS, wSumE, wSumL, wSumB, wSumS]
      try omega
  | loopE b =>
      simp only [cc_expr, ccSpecE, wSumE, wIf, wMatch, wLoop, wClosure, wLogic,
        cc_block_eq b]
      try simp only [ccSpecE, ccSpecL, ccSpecB, ccSpecS, wSumE, wSumL, wSumB, wSumS]
      try omega
  | closure b =>
      simp only [cc_expr, ccSpecE, wSumE, wIf, wMatch, wLoop, wClosure, wLogic,
        cc_expr_eq b]
      try simp only [ccSpecE, ccSpecL, ccSpecB, ccSpecS, wSumE, wSumL, wSumB, wSumS]
      try omega
/-- List version of `cc_expr_eq`. -/
theorem cc_list_eq (l : RExprList) (acc : Nat) :
    cc_list l acc = acc + ccSpecL l := by
  cases l with
  | nil => simp [cc_list, ccSpecL, wSumL]
  | cons e tl =>
      simp only [cc_list, wSumL, cc_expr_eq e, cc_list_eq tl]
      try simp only [ccSpecE, ccSpecL, ccSpecB, ccSpecS, wSumE, wSumL, wSumB, wSumS]
      try omega
/-- Block version of `cc_expr_eq`. -/
theorem cc_block_eq (b : RStmtList) (acc : Nat) :
    cc_block b acc = acc + ccSpecB b := by
  cases b with
  | nil => simp [cc_block, ccSpecB, wSumB]
  | cons s tl =>
      simp only [cc_block, wSumB, cc_stmt_eq s, cc_block_eq tl]
      try simp only [ccSpecE, ccSpecL, ccSpecB, ccSpecS, wSumE, wSumL, wSumB, wSumS]
      try omega
/-- Statement version of `cc_expr_eq`. -/
theorem cc_stmt_eq (s : RStmt) (acc : Nat) :
    cc_stmt s acc = acc + ccSpecS s := by
  cases s with
  | exprStmt e =>
      simp only [cc_stmt, wSumS, cc_expr_eq e]
      try simp only [ccSpecE, ccSpecL, ccSpecB, ccSpecS, wSumE, wSumL, wSumB, wSumS]
      try omega
  | localInit ty e =>
      simp only [cc_stmt, wSumS, cc_expr_eq e]
      try simp only [ccSpecE, ccSpecL, ccSpecB, ccSpecS, wSumE, wSumL, wSumB, wSumS]
      try omega
  | localNoInit ty => simp [cc_stmt, ccSpecS, wSumS]
  | macStmt p toks => simp [cc_stmt, ccSpecS, wSumS]
  | otherStmt => simp [cc_stmt, ccSpecS, wSumS]
end

-- ── Lemmas about `final_check` ───────────────────────────────────────────

/-- A colliding group emits one issue per occurrence. -/
theorem groupIssues_length (v : String) (infos : List KeyInfo) :
    (groupIssues v infos).length = infos.length := by
  simp [groupIssues]

/-- Every issue of a group carries the group's key value. -/
theorem mem_groupIssues_key (v : String) (infos : List KeyInfo)
    (i : StorageCollisionIssue) (h : i ∈ groupIssues v infos) :
    i.key_value = v := by
  simp only [groupIssues, List.mem_map] at h
  obtain ⟨pr, _, rfl⟩ := h
  rfl

/-- Filtering a group's issues by its own key keeps everything. -/
theorem filter_groupIssues_self (v : String) (infos : List KeyInfo) :
    (groupIssues v infos).filter (fun i => i.key_value == v) =
      groupIssues v infos := by
  refine List.filter_eq_self.mpr fun i hi => ?_
  simp [mem_groupIssues_key v infos i hi]

/-- Filtering a group's issues by a different key drops everything. -/
theorem filter_groupIssues_ne (v w : String) (infos : List KeyInfo)
    (h : ¬ w = v) :
    (groupIssues w infos).filter (fun i => i.key_value == v) = [] := by
  refine List.filter_eq_nil_iff.mpr fun i hi => ?_
  simp [mem_groupIssues_key w infos i hi, h]

/-- No entry with key `v` means no issue with key `v`. -/
theorem final_check_filter_nil (entries : List (String × List KeyInfo))
    (v : String) (h : ∀ pr ∈ entries, pr.1 ≠ v) :
    (final_check entries).filter (fun i => i.key_value == v) = [] := by
  induction entries with
  | nil => rfl
  | cons pr tl ih =>
      simp only [final_check, List.flatMap_cons, List.filter_append] at ih ⊢
      rw [ih fun q hq => h q (List.mem_cons_of_mem pr hq)]
      by_cases hl : pr.2.length > 1
      · rw [if_pos hl, filter_groupIssues_ne v pr.1 pr.2
          (h pr (List.mem_cons_self pr tl))]
        rfl
      · rw [if_neg hl]
        rfl

/-- Filtering the whole `final_check` output by one key yields exactly
that key's group issues (assuming the map keys are distinct, which the
map structure guarantees). -/
theorem final_check_filter (entries : List (String × List KeyInfo))
    (v : String) (occs : List KeyInfo)
    (hnd : (entries.map Prod.fst).Nodup) (hmem : (v, occs) ∈ entries) :
    (final_check entries).filter (fun i => i.key_value == v) =
      if occs.length > 1 then groupIssues v occs else [] := by
  induction entries with
  | nil => cases hmem
  | cons pr tl ih =>
      simp only [final_check, List.flatMap_cons, List.filter_append] at ih ⊢
      simp only [List.map_cons, List.nodup_cons] at hnd
      rcases List.mem_cons.mp hmem with heq | htl
      · have hv : pr.1 = v := (congrArg Prod.fst heq).symm
        have ho : pr.2 = occs := (congrArg Prod.snd heq).symm
        rw [hv] at hnd
        rw [hv, ho]
        have hnil := final_check_filter_nil tl v fun q hq hqv =>
          hnd.1 (hqv ▸ List.mem_map_of_mem Prod.fst hq)
        simp only [final_check] at hnil
        rw [hnil]
        by_cases hl : occs.length > 1
        · rw [if_pos hl, filter_groupIssues_self, List.append_nil]
        · rw [if_neg hl]
          rfl
      · have hne : pr.1 ≠ v := by
          intro hv
          exact hnd.1 (hv ▸ List.mem_map_of_mem Prod.fst htl)
        rw [ih hnd.2 htl]
        by_cases hl : pr.2.length > 1
        · rw [if_pos hl, filter_groupIssues_ne v pr.1 pr.2 hne, List.nil_append]
        · rw [if_neg hl]
          rfl

/-- `dedupKeys` yields distinct values. -/
theorem dedup_fold_nodup (occs : List KeyInfo) (acc : List String)
    (h : acc.Nodup) :
    (occs.foldl
      (fun acc k => if acc.contains k.value then acc else acc ++ [k.value])
      acc).Nodup := by
  induction occs generalizing acc with
  | nil => exact h
  | cons k tl ih =>
      simp only [List.foldl_cons]
      by_cases hc : acc.contains k.value = true
      · rw [if_pos hc]
        exact ih acc h
      · rw [if_neg hc]
        refine ih _ ?_
        have hm : k.value ∉ acc := by simpa [List.elem_eq_mem] using hc
        simp [List.nodup_append, h, hm]

/-- The first components of `collectGroups` are the deduplicated keys. -/
theorem collectGroups_fst (occs : List KeyInfo) :
    (collectGroups occs).map Prod.fst = dedupKeys occs := by
  unfold collectGroups
  rw [List.map_map]
  have h : (Prod.fst ∘ fun v => (v, occs.filter fun k => k.value == v)) = id := by
    funext v
    rfl
  rw [h, List.map_id]

/-- The keys of `collectGroups` are distinct. -/
theorem collectGroups_nodup (occs : List KeyInfo) :
    ((collectGroups occs).map Prod.fst).Nodup := by
  rw [collectGroups_fst]
  exact dedup_fold_nodup occs [] List.nodup_nil

/-- A `collectGroups` entry's occurrence list is exactly the collected
occurrences of its value. -/
theorem mem_collectGroups (occs : List KeyInfo) (v : String)
    (os : List KeyInfo) (h : (v, os) ∈ collectGroups occs) :
    os = occs.filter fun k => k.value == v := by
  simp only [collectGroups, List.mem_map] at h
  obtain ⟨v', _, heq⟩ := h
  have hv : v' = v := congrArg Prod.fst heq
  have ho : occs.filter (fun k => k.value == v') = os := congrArg Prod.snd heq
  rw [← ho, hv]

/-- The panic scan is exactly: for each impl-block function, one issue
per traversal-reachable occurrence, in order. -/
theorem scan_panics_impl_eq (items : List RItem) :
    scan_panics_impl (some ⟨items⟩) =
      (implFnsOf ⟨items⟩).flatMap fun f =>
        (panicOccB f.body).map (mkPanicIssue f.name) := by
  induction items with
  | nil => rfl
  | cons it tl ih =>
      cases it <;>
        simp only [scan_panics_impl, implFnsOf, List.flatMap_cons] at ih ⊢ <;>
        simp_all [check_fn_panics_eq, List.flatMap_append]

-- ── Claim theorems ───────────────────────────────────────────────────────

/-- C1 (counterexample): the claim's reading — a function is reported
exactly once iff its body contains a `set`/`update`/`remove` call on a
receiver whose rendered text has a storage keyword, and no auth call
anywhere — fails on `cfg.set(storage_key, 1)`: the receiver `cfg` has no
storage keyword, yet the function is reported, because the code renders
the whole method call (arguments included) via `quote!(#m.receiver)`. -/
theorem auth_gap_receiver_claim_counterexample :
    ¬ (((scan_auth_gaps_impl (some c1File)).count "set_flag" = 1) ↔
       (claimMutB c1Body = true ∧ claimAuthB c1Body = false)) := by
  decide

/-- C1 (amended): a public impl-block function's name appears in the
auth-gap report once per qualifying definition, where qualifying means:
the traversed part of its body (statement expressions and local
initializers, descending through call arguments, method
receivers/arguments, blocks, `if` conditions and branches, and `match`
scrutinees and arms — not into other expression forms) contains a
`set`/`update`/`remove` method call whose whole rendered call text
contains a storage keyword, and no authorization primitive as a free
call, method call, or statement-level macro. -/
theorem auth_gap_report_count (items : List RItem) (n : String) :
    (scan_auth_gaps_impl (some ⟨items⟩)).count n =
      (implFnsOf ⟨items⟩).countP
        (fun f => (f.name == n) &&
          (f.isPublic && mutReachB f.body && !authReachB f.body)) := by
  rw [scan_auth_gaps_eq]
  have hc : ∀ l : List String, l.count n = l.countP (fun x => x == n) :=
    fun l => rfl
  rw [hc, List.countP_map, List.countP_filter]
  rfl

/-- C2: every detector entry point returns its finding list on success,
and the empty (default) list on a parse failure of the input or a panic
raised during traversal — a failure never propagates to the caller. -/
theorem detector_failure_isolation (cfg : SanctifyConfig) (p : Option RFile)
    (entries : List (String × List KeyInfo)) (err : String) :
    (scan_auth_gaps none none = [] ∧ scan_auth_gaps p (some err) = [] ∧
      scan_auth_gaps p none = scan_auth_gaps_impl p) ∧
    (scan_panics none none = [] ∧ scan_panics p (some err) = [] ∧
      scan_panics p none = scan_panics_impl p) ∧
    (scan_arithmetic_overflow none none = [] ∧
      scan_arithmetic_overflow p (some err) = [] ∧
      scan_arithmetic_overflow p none = scan_arithmetic_overflow_impl p) ∧
    (analyze_ledger_size cfg none none = [] ∧
      analyze_ledger_size cfg p (some err) = [] ∧
      analyze_ledger_size cfg p none = analyze_ledger_size_impl cfg p) ∧
    (scan_storage_collisions none entries none = [] ∧
      scan_storage_collisions p entries (some err) = [] ∧
      scan_storage_collisions p entries none =
        scan_storage_collisions_impl p entries) ∧
    (scan_gas_estimation none none = [] ∧ scan_gas_estimation p (some err) = [] ∧
      scan_gas_estimation p none = estimate_contract p) :=
  ⟨⟨rfl, rfl, rfl⟩, ⟨rfl, rfl, rfl⟩, ⟨rfl, rfl, rfl⟩, ⟨rfl, rfl, rfl⟩,
    ⟨rfl, rfl, rfl⟩, ⟨rfl, rfl, rfl⟩⟩

/-- C3 (code bug): with limit 70, threshold 0.8 and strict mode off, a
64-byte `#[contracttype]` struct sits in the approaching band
(`56 ≤ 64 < 70`), and both the spec's classification and `classify_size`
itself (called with the intended arguments) yield `ApproachingLimit` —
yet `analyze_ledger_size_impl` emits no warning, because its
merge-garbled double gate calls `classify_size` with the absolute count
`floor(limit × 0.8)` in the fractional `approaching` position. -/
theorem ledger_size_approaching_band_dropped :
    estimate_struct_size c3Struct = 64 ∧
    spec_classify_size 64 70 (4 / 5) false = some .approachingLimit ∧
    classify_size 64 70 (4 / 5) false 35 = some .approachingLimit ∧
    analyze_ledger_size_impl c3Config (some c3File) = [] := by
  refine ⟨rfl, ?_, ?_, ?_⟩
  · norm_num [spec_classify_size]
  · norm_num [classify_size]
  · norm_num [analyze_ledger_size_impl, c3Config, defaultConfig, c3File,
      c3Struct, estimate_struct_size, fieldTypes, estimate_type_size,
      has_contracttype, classify_size, ratToUsize,
      show (Rat.floor 56).toNat = 56 from rfl]

/-- C4: the arithmetic detector emits exactly one issue per distinct
`(function name, operator)` pair: one when some function of that name
contains an occurrence of the operator (outside string-literal
concatenation), none otherwise. -/
theorem arith_issue_once_per_fn_op (items : List RItem) (n o : String) :
    (scan_arithmetic_overflow_impl (some ⟨items⟩)).countP
        (fun i => i.function_name == n && i.operation == o) =
      if eligFile items n o then 1 else 0 := by
  have hInv0 : ArithInv ⟨[], []⟩ := by
    intro q
    simp [ArithInv]
  have h := arith_items_inv items ⟨[], []⟩ hInv0 (n, o)
  have hSeen := arith_items_seen items ⟨[], []⟩ (n, o)
  simp only [List.not_mem_nil, false_or] at hSeen
  exact h.trans (if_congr hSeen rfl rfl)

/-- C5: for every key value, the collision scan (under any hash
iteration order of the key map) emits exactly one issue per occurrence
when the value occurs more than once — each carrying its own
location/kind and cross-referencing the other occurrences — and no issue
for a singleton value. -/
theorem storage_collision_per_occurrence (file : RFile)
    (entries : List (String × List KeyInfo))
    (hperm : entries.Perm (collectGroups (collectFile file)))
    (v : String) (occs : List KeyInfo) (hmem : (v, occs) ∈ entries) :
    occs = (collectFile file).filter (fun k => k.value == v) ∧
    ((final_check entries).filter (fun i => i.key_value == v) =
      if occs.length > 1 then groupIssues v occs else []) ∧
    ((final_check entries).filter (fun i => i.key_value == v)).length =
      if occs.length > 1 then occs.length else 0 := by
  have hnd : (entries.map Prod.fst).Nodup :=
    ((hperm.map Prod.fst).nodup_iff).mpr (collectGroups_nodup (collectFile file))
  have hg : (v, occs) ∈ collectGroups (collectFile file) := hperm.mem_iff.mp hmem
  have h1 := mem_collectGroups _ v occs hg
  have h2 := final_check_filter entries v occs hnd hmem
  refine ⟨h1, h2, ?_⟩
  rw [h2]
  by_cases hl : occs.length > 1
  · rw [if_pos hl, if_pos hl, groupIssues_length]
  · rw [if_neg hl, if_neg hl]
    rfl

/-- C5 witness: concrete instantiation on `c5File`. -/
theorem storage_collision_per_occurrence_witness :
    (collectGroups (collectFile c5File)).Perm
        (collectGroups (collectFile c5File)) ∧
    ("collision", c5Occs) ∈ collectGroups (collectFile c5File) ∧
    (c5Occs = (collectFile c5File).filter (fun k => k.value == "collision") ∧
      ((final_check (collectGroups (collectFile c5File))).filter
          (fun i => i.key_value == "collision") =
        if c5Occs.length > 1 then groupIssues "collision" c5Occs else []) ∧
      ((final_check (collectGroups (collectFile c5File))).filter
          (fun i => i.key_value == "collision")).length =
        if c5Occs.length > 1 then c5Occs.length else 0) :=
  ⟨List.Perm.refl _, by decide,
    storage_collision_per_occurrence c5File _ (List.Perm.refl _) "collision"
      c5Occs (by decide)⟩

/-- C6 (counterexample): the panic scanner does not walk free functions:
a public free `fn` whose body is `panic!("x")` yields no issue, though
the per-occurrence reading over free and impl functions demands one. -/
theorem panic_free_fn_counterexample :
    ¬ ((scan_panics_impl (some c6File)).length =
       ((allFnsOf c6File.items).flatMap fun f => panicOccB f.body).length) := by
  decide

/-- C6 (amended): the panic scanner walks impl-block functions only, and
there emits one issue per `panic!` macro, `unwrap` call or `expect`
call at the traversal-reachable positions (statements and local
initializers, descending into blocks, if/else, match arms, call
arguments, method receivers and arguments), in traversal order with no
deduplication. -/
theorem panic_scan_impl_per_occurrence (items : List RItem) :
    scan_panics_impl (some ⟨items⟩) =
      (implFnsOf ⟨items⟩).flatMap fun f =>
        (panicOccB f.body).map (mkPanicIssue f.name) :=
  scan_panics_impl_eq items

/-- C7: each `for`/`while`/`loop` construct contributes to the enclosing
function's totals a fixed 50-instruction overhead plus ten times the
loop body's estimate, the body being estimated in isolation exactly as a
public method's body would be (fresh visitor seeded at the 50/32 base
costs). -/
theorem gas_loop_cost_model (pat : String) (it c : RExpr) (b : RStmtList)
    (i m : Nat) (s n : String) (pc : Nat) :
    gas_expr (.forLoop pat it b) (i, m) =
        gas_expr it (i + 50 + (estimate_function b).1 * 10,
          m + (estimate_function b).2 * 10) ∧
    gas_expr (.whileLoop c b) (i, m) =
        gas_expr c (i + 50 + (estimate_function b).1 * 10,
          m + (estimate_function b).2 * 10) ∧
    gas_expr (.loopE b) (i, m) =
        (i + 50 + (estimate_function b).1 * 10,
          m + (estimate_function b).2 * 10) ∧
    estimate_contract (some ⟨[.implBlock s [⟨n, true, pc, b⟩]]⟩) =
      [⟨n, (estimate_function b).1, (estimate_function b).2⟩] := by
  refine ⟨rfl, rfl, rfl, ?_⟩
  simp [estimate_contract, estimate_function]

/-- C8 (counterexample): the storage-collision detector's output order
depends on the hash map's group iteration order, which is not a function
of the input: two valid iteration orders of `c8File`'s key map produce
different finding lists. -/
theorem storage_scan_order_counterexample :
    c8e1.Perm (collectGroups (collectFile c8File)) ∧
    c8e2.Perm (collectGroups (collectFile c8File)) ∧
    scan_storage_collisions_impl (some c8File) c8e1 ≠
      scan_storage_collisions_impl (some c8File) c8e2 := by
  refine ⟨List.Perm.refl _, List.reverse_perm _, by decide⟩

/-- C8 (amended): re-running the storage-collision detector on identical
input yields the same findings up to the hash map's group iteration
order — the outputs of any two runs are permutations of each other (the
other detectors are literally deterministic, being pure functions of
their input; see `detector_failure_isolation`'s success equations). -/
theorem storage_rerun_permutation (file : RFile)
    (e1 e2 : List (String × List KeyInfo))
    (h1 : e1.Perm (collectGroups (collectFile file)))
    (h2 : e2.Perm (collectGroups (collectFile file))) :
    (scan_storage_collisions_impl (some file) e1).Perm
      (scan_storage_collisions_impl (some file) e2) :=
  List.Perm.flatMap_right _ (h1.trans h2.symm)

/-- C8 witness: concrete instantiation on `c8File` with the two
iteration orders `c8e1` and `c8e2`. -/
theorem storage_rerun_permutation_witness :
    c8e1.Perm (collectGroups (collectFile c8File)) ∧
    c8e2.Perm (collectGroups (collectFile c8File)) ∧
    (scan_storage_collisions_impl (some c8File) c8e1).Perm
      (scan_storage_collisions_impl (some c8File) c8e2) :=
  ⟨List.Perm.refl _, List.reverse_perm _,
    storage_rerun_permutation c8File c8e1 c8e2 (List.Perm.refl _)
      (List.reverse_perm _)⟩

/-- C9: every analyzed function's cyclomatic complexity equals 1 plus
one per `if`, the arm count minus one per `match`, one per
`for`/`while`/`loop`, one per closure, and one per `&&`/`||`, counted
anywhere in the body regardless of nesting. -/
theorem cyclomatic_complexity_formula (file : RFile) :
    analyze_complexity file =
      (complexityFns file.items).map fun f =>
        (f.name,
          1 + wSumB wIf f.body + wSumB wMatch f.body + wSumB wLoop f.body +
            wSumB wClosure f.body + wSumB wLogic f.body) := by
  unfold analyze_complexity
  refine List.map_congr_left fun f _ => ?_
  have h := cc_block_eq f.body 1
  simp only [fn_cyclomatic, h, ccSpecB, Prod.mk.injEq, true_and]
  omega

/-- C10: every issue the panic scanner emits has its `location` field
equal to its `function_name` field (both are the enclosing function's
bare name; no file/line/column). -/
theorem panic_issue_location_is_function_name (p : Option RFile)
    (i : PanicIssue) (h : i ∈ scan_panics_impl p) :
    i.location = i.function_name := by
  cases p with
  | none => cases h
  | some file =>
      obtain ⟨items⟩ := file
      rw [scan_panics_impl_eq items] at h
      simp only [List.mem_flatMap, List.mem_map] at h
      obtain ⟨f, _, t, _, rfl⟩ := h
      rfl

/-- C10 witness: the `unwrap` issue of `c10File`. -/
theorem panic_issue_location_witness :
    (⟨"getter", "unwrap", "getter"⟩ : PanicIssue) ∈
        scan_panics_impl (some c10File) ∧
    (⟨"getter", "unwrap", "getter"⟩ : PanicIssue).location =
      (⟨"getter", "unwrap", "getter"⟩ : PanicIssue).function_name :=
  ⟨by decide,
    panic_issue_location_is_function_name (some c10File) _ (by decide)⟩

end Sanctifier

